import Mathlib

/-!
Verification development for `spdx3tohtml` (`src/spdx3tohtml/main.py`).

The program renders an SPDX 3.0 JSON-LD document into syntax-highlighted,
cross-linked HTML.  We embed the core renderer shallowly:

* JSON values are the inductive `JValue`.
* Python-level operations that can raise (`x in c`, `c[x]`, `c.get(k)`,
  iteration) are embedded as `Except PyErr` computations (`pyIn`,
  `pyGetItem`, `pyGet`, `pyIter`).
* Network access (`urllib.request.urlopen`) is an oracle
  `net : String → NetResult`; each consultation is logged in the render
  state so that "at most one validation per URL" is provable.
* Every `f.write(...)` of the renderer is one `OutTok` token; `tokenHtml`
  maps a token to the exact text the Python program writes.
* The mutually recursive render methods take a fuel parameter bounding
  recursion depth (mirroring Python's recursion limit); exhaustion is the
  distinct outcome `PyErr.outOfFuel`, never confused with program errors.

Numeric literals are modelled as integers; no property below depends on
float formatting.  Python sets are modelled as lists whose membership is
what matters; `List.insert` gives `set.add` semantics.
-/

/-- JSON values (the shapes produced by `json.loads`). -/
inductive JValue where
  | str (s : String)
  | num (n : Int)
  | bool (b : Bool)
  | null
  | obj (fields : List (String × JValue))
  | arr (elems : List JValue)
deriving Repr

mutual

/-- Boolean equality on JSON values (Python `==` on JSON data; the Python
corner `True == 1` is not modelled — it is unobservable in every property
below, which only compares strings with strings). -/
def jbeq : JValue → JValue → Bool
  | .str a, .str b => a == b
  | .num a, .num b => a == b
  | .bool a, .bool b => a == b
  | .null, .null => true
  | .obj a, .obj b => jbeqKVs a b
  | .arr a, .arr b => jbeqList a b
  | _, _ => false

def jbeqKVs : List (String × JValue) → List (String × JValue) → Bool
  | [], [] => true
  | (k1, v1) :: r1, (k2, v2) :: r2 => k1 == k2 && jbeq v1 v2 && jbeqKVs r1 r2
  | _, _ => false

def jbeqList : List JValue → List JValue → Bool
  | [], [] => true
  | a :: r1, b :: r2 => jbeq a b && jbeqList r1 r2
  | _, _ => false

end

mutual

/-- `jbeq` decides propositional equality (a definition rather than a
theorem so that the `DecidableEq` instance below is available to the
remaining definitions). -/
def jbeq_iff : ∀ a b : JValue, jbeq a b = true ↔ a = b
  | .str _, .str _ => by simp [jbeq]
  | .num _, .num _ => by simp [jbeq]
  | .bool _, .bool _ => by simp [jbeq]
  | .null, .null => by simp [jbeq]
  | .obj a, .obj b => by simp [jbeq, jbeqKVs_iff a b]
  | .arr a, .arr b => by simp [jbeq, jbeqList_iff a b]
  | .str _, .num _ => by simp [jbeq]
  | .str _, .bool _ => by simp [jbeq]
  | .str _, .null => by simp [jbeq]
  | .str _, .obj _ => by simp [jbeq]
  | .str _, .arr _ => by simp [jbeq]
  | .num _, .str _ => by simp [jbeq]
  | .num _, .bool _ => by simp [jbeq]
  | .num _, .null => by simp [jbeq]
  | .num _, .obj _ => by simp [jbeq]
  | .num _, .arr _ => by simp [jbeq]
  | .bool _, .str _ => by simp [jbeq]
  | .bool _, .num _ => by simp [jbeq]
  | .bool _, .null => by simp [jbeq]
  | .bool _, .obj _ => by simp [jbeq]
  | .bool _, .arr _ => by simp [jbeq]
  | .null, .str _ => by simp [jbeq]
  | .null, .num _ => by simp [jbeq]
  | .null, .bool _ => by simp [jbeq]
  | .null, .obj _ => by simp [jbeq]
  | .null, .arr _ => by simp [jbeq]
  | .obj _, .str _ => by simp [jbeq]
  | .obj _, .num _ => by simp [jbeq]
  | .obj _, .bool _ => by simp [jbeq]
  | .obj _, .null => by simp [jbeq]
  | .obj _, .arr _ => by simp [jbeq]
  | .arr _, .str _ => by simp [jbeq]
  | .arr _, .num _ => by simp [jbeq]
  | .arr _, .bool _ => by simp [jbeq]
  | .arr _, .null => by simp [jbeq]
  | .arr _, .obj _ => by simp [jbeq]

def jbeqKVs_iff : ∀ a b : List (String × JValue), jbeqKVs a b = true ↔ a = b
  | [], [] => by simp [jbeqKVs]
  | (_, v1) :: r1, (_, v2) :: r2 => by
      simp [jbeqKVs, jbeq_iff v1 v2, jbeqKVs_iff r1 r2, and_assoc]
  | [], (_, _) :: _ => by simp [jbeqKVs]
  | (_, _) :: _, [] => by simp [jbeqKVs]

def jbeqList_iff : ∀ a b : List JValue, jbeqList a b = true ↔ a = b
  | [], [] => by simp [jbeqList]
  | a :: r1, b :: r2 => by simp [jbeqList, jbeq_iff a b, jbeqList_iff r1 r2]
  | [], _ :: _ => by simp [jbeqList]
  | _ :: _, [] => by simp [jbeqList]

end

instance : DecidableEq JValue := fun a b => decidable_of_iff _ (jbeq_iff a b)

instance {e α : Type} [DecidableEq e] [DecidableEq α] : DecidableEq (Except e α) :=
  fun x y =>
    match x, y with
    | .ok a, .ok b => decidable_of_iff (a = b) (by simp)
    | .error a, .error b => decidable_of_iff (a = b) (by simp)
    | .ok _, .error _ => isFalse (by simp)
    | .error _, .ok _ => isFalse (by simp)

/-- Python truthiness of a JSON value (`if not x`, `x or y`). -/
def JValue.truthy : JValue → Bool
  | .str s => !s.data.isEmpty
  | .num n => n != 0
  | .bool b => b
  | .null => false
  | .obj kvs => !kvs.isEmpty
  | .arr l => !l.isEmpty

/-- Python exceptions the embedded code can raise, plus fuel exhaustion. -/
inductive PyErr where
  | keyError (k : String)
  | keyErrorOther
  | indexError
  | typeError
  | attributeError
  | fatal (msg : String)
  | httpError (code : Nat)
  | urlError
  | outOfFuel
deriving DecidableEq, Repr

/-- First-match association lookup (Python dict indexing; keys parsed from
JSON are unique, so first-match agrees with dict semantics). -/
def lookupKV : List (String × JValue) → String → Option JValue
  | [], _ => none
  | (k, v) :: rest, key => if k == key then some v else lookupKV rest key

/-- `listLeads p s` iff the char list `p` is an initial run of `s`
(Python `str.startswith`). -/
def listLeads : List Char → List Char → Bool
  | [], _ => true
  | _ :: _, [] => false
  | a :: as, b :: bs => a == b && listLeads as bs

def strStarts (p s : String) : Bool := listLeads p.data s.data

/-- `containsSub n h` iff `n` occurs contiguously in `h` (Python `x in str`). -/
def containsSub (needle hay : List Char) : Bool :=
  match hay with
  | [] => needle.isEmpty
  | _ :: t => listLeads needle hay || containsSub needle t

/-- Python `x in c`.  Dicts test keys (unhashable keys raise `TypeError`;
hashable non-string keys are never present since JSON object keys are
strings), lists test elements, strings test substrings, anything else
raises `TypeError`. -/
def pyIn (x c : JValue) : Except PyErr Bool :=
  match c with
  | .obj kvs =>
    match x with
    | .str s => .ok (kvs.any (fun kv => kv.1 == s))
    | .obj _ => .error .typeError
    | .arr _ => .error .typeError
    | _ => .ok false
  | .arr l => .ok (l.any (fun y => jbeq y x))
  | .str s =>
    match x with
    | .str t => .ok (containsSub t.data s.data)
    | _ => .error .typeError
  | _ => .error .typeError

/-- Python list indexing with negative-index wrap. -/
def listIndex (l : List JValue) (i : Int) : Except PyErr JValue :=
  let j : Int := if i < 0 then i + l.length else i
  if h : 0 ≤ j ∧ j.toNat < l.length then .ok (l.get ⟨j.toNat, h.2⟩)
  else .error .indexError

/-- Python subscription `c[x]`. -/
def pyGetItem (c x : JValue) : Except PyErr JValue :=
  match c with
  | .obj kvs =>
    match x with
    | .str s =>
      match lookupKV kvs s with
      | some v => .ok v
      | none => .error (.keyError s)
    | .obj _ => .error .typeError
    | .arr _ => .error .typeError
    | _ => .error .keyErrorOther
  | .arr l =>
    match x with
    | .num i => listIndex l i
    | .bool b => listIndex l (if b then 1 else 0)
    | _ => .error .typeError
  | .str s =>
    match x with
    | .num i =>
      let j : Int := if i < 0 then i + s.data.length else i
      if h : 0 ≤ j ∧ j.toNat < s.data.length then
        .ok (.str ⟨[s.data.get ⟨j.toNat, h.2⟩]⟩)
      else .error .indexError
    | _ => .error .typeError
  | _ => .error .typeError

/-- Python `c.get(k)` with default `None` (`AttributeError` off a non-dict). -/
def pyGet (c : JValue) (k : String) : Except PyErr (Option JValue) :=
  match c with
  | .obj kvs => .ok (lookupKV kvs k)
  | _ => .error .attributeError

/-- Python `for x in v`: lists yield elements, dicts yield keys, strings
yield one-character strings, anything else raises `TypeError`. -/
def pyIter (v : JValue) : Except PyErr (List JValue) :=
  match v with
  | .arr l => .ok l
  | .obj kvs => .ok (kvs.map (fun kv => JValue.str kv.1))
  | .str s => .ok (s.data.map (fun c => JValue.str ⟨[c]⟩))
  | _ => .error .typeError

/-- Split a char list at `'/'` (Python `str.split("/")`). -/
def splitOnSlash : List Char → List (List Char)
  | [] => [[]]
  | c :: cs =>
    match splitOnSlash cs with
    | [] => [[]]
    | seg :: segs => if c == '/' then [] :: seg :: segs else (c :: seg) :: segs

/-- Python `str.rstrip("/")`. -/
def rstripSlash (s : String) : String :=
  ⟨(s.data.reverse.dropWhile (fun c => c == '/')).reverse⟩

/-- `rdf_uri.rstrip("/").rsplit("/", 2)` with three-way unpacking: the last
two `/`-separated segments, provided at least three segments exist
(otherwise Python raises `ValueError`, which the caller absorbs). -/
def rsplit2 (s : String) : Option (String × String) :=
  match (splitOnSlash (rstripSlash s).data).reverse with
  | n :: profile :: _ :: _ => some (⟨profile⟩, ⟨n⟩)
  | _ => none

/-- ASCII lowering (`str.lower()` on the ASCII-only kind labels). -/
def lowerAscii (s : String) : String := ⟨s.data.map Char.toLower⟩

/-- One character of `html.escape` (quote=True). -/
def escChar (c : Char) : List Char :=
  if c == '&' then "&amp;".data
  else if c == '<' then "&lt;".data
  else if c == '>' then "&gt;".data
  else if c == '"' then "&quot;".data
  else if c.toNat == 39 then "&#x27;".data
  else [c]

/-- `html.escape` (the sequential replaces of the library function agree
with this single pass, since `&` is replaced first). -/
def htmlEscape (s : String) : String := ⟨s.data.flatMap escChar⟩

def hexDigit (n : Nat) : Char :=
  if n < 10 then Char.ofNat (48 + n) else Char.ofNat (87 + n)

def hex4 (n : Nat) : List Char :=
  [hexDigit (n / 4096 % 16), hexDigit (n / 256 % 16), hexDigit (n / 16 % 16),
   hexDigit (n % 16)]

/-- One character of `json.dumps` string escaping (ensure_ascii). -/
def jsonEscChar (c : Char) : List Char :=
  if c == '"' then ['\\', '"']
  else if c == '\\' then ['\\', '\\']
  else if c == '\n' then ['\\', 'n']
  else if c == '\r' then ['\\', 'r']
  else if c == '\t' then ['\\', 't']
  else if c.toNat == 8 then ['\\', 'b']
  else if c.toNat == 12 then ['\\', 'f']
  else if 32 ≤ c.toNat && c.toNat ≤ 126 then [c]
  else if c.toNat < 65536 then '\\' :: 'u' :: hex4 c.toNat
  else
    ('\\' :: 'u' :: hex4 (55296 + (c.toNat - 65536) / 1024)) ++
    ('\\' :: 'u' :: hex4 (56320 + (c.toNat - 65536) % 1024))

/-- `json.dumps(s).strip('"')`: escape, wrap in quotes, then strip every
leading and trailing `"` character. -/
def jsonStrBody (s : String) : String :=
  let dumped : List Char := '"' :: s.data.flatMap jsonEscChar ++ ['"']
  ⟨((dumped.dropWhile (fun c => c == '"')).reverse.dropWhile
      (fun c => c == '"')).reverse⟩

/-- The network oracle's answer for one `urlopen` call. -/
inductive NetResult where
  | ok
  | httpError (code : Nat)
  | transport
deriving DecidableEq, Repr

/-- Mutable render-instance state: `self.anchors`, `self.checked_urls`,
plus a log of the URLs actually sent to the network (one entry per
`urlopen` call made by `get_doc_url`). -/
structure RSt where
  anchors : List JValue
  checked_urls : List String
  netCalls : List String
deriving DecidableEq, Repr

/-- One `f.write` of the renderer.  `tokenHtml` below gives the exact text
each token stands for; ids, hrefs and string payloads are carried
unescaped (`html.escape` is applied by `tokenHtml`).  `spanAnchor` records
an id-span written for an allocator anchor (`get_anchor` result), `spanId`
one written for a node's `@id`/`spdxId`/`externalSpdxId`; both render as
the same `<span id=...>` markup. -/
inductive OutTok where
  | lbrace
  | rbrace
  | lbracket
  | rbracket
  | colon
  | comma
  | nl
  | ind (n : Nat)
  | spanAnchor (id : String)
  | spanId (id : String)
  | spanClose
  | aOpen (href : String)
  | aClose
  | strTok (s : String) (cls : String)
  | boolTok (b : Bool)
  | numTok (s : String)
deriving DecidableEq, Repr

/-- `string(s, cls)` from the source. -/
def stringRender (s cls : String) : String :=
  "<span class=\"token\">\"</span>" ++ "<span class=\"" ++ cls ++ "\">" ++
  htmlEscape (jsonStrBody s) ++ "</span>" ++ "<span class=\"token\">\"</span>"

/-- The exact text each output token stands for. -/
def tokenHtml : OutTok → String
  | .lbrace => "<span class=\"token\">\x7b</span>"
  | .rbrace => "<span class=\"token\">\x7d</span>"
  | .lbracket => "<span class=\"token\">[</span>"
  | .rbracket => "<span class=\"token\">]</span>"
  | .colon => "<span class=\"token\">:</span> "
  | .comma => "<span class=\"token\">,</span>"
  | .nl => "\n"
  | .ind n => ⟨List.replicate (2 * n) ' '⟩
  | .spanAnchor i => "<span id=\"" ++ htmlEscape i ++ "\">"
  | .spanId i => "<span id=\"" ++ htmlEscape i ++ "\">"
  | .spanClose => "</span>"
  | .aOpen href => "<a href=\"" ++ htmlEscape href ++ "\">"
  | .aClose => "</a>"
  | .strTok s cls => stringRender s cls
  | .boolTok b => "<span class=\"boolean\">" ++ (if b then "true" else "false") ++ "</span>"
  | .numTok s => "<span class=\"number\">" ++ s ++ "</span>"

/-- `get_obj_id(obj)`: `obj.get("@id", obj.get("spdxId"))` (the inner
`get` is evaluated first). -/
def get_obj_id (obj : JValue) : Except PyErr (Option JValue) :=
  match pyGet obj "spdxId" with
  | .error e => .error e
  | .ok dflt =>
    match pyGet obj "@id" with
    | .error e => .error e
    | .ok (some v) => .ok (some v)
    | .ok none => .ok dflt

/-- `prefix + "-" + name` (raises `TypeError` when `name` is not a string). -/
def synthAnchor (pfx : String) (name : JValue) : Except PyErr JValue :=
  match name with
  | .str s => .ok (.str (pfx ++ "-" ++ s))
  | _ => .error .typeError

/-- `OutputFile.get_anchor(name, prefix, context)` over an explicit anchor
set.  Returns the allocated anchor (or `none` on a duplicate) and the
updated anchor set. -/
def get_anchor (name : JValue) (pfx : String) (ctx : JValue)
    (anchors : List JValue) : Except PyErr (Option JValue × List JValue) :=
  match pyIn name ctx with
  | .error e => .error e
  | .ok inCtx =>
    let step1 : Except PyErr (Option JValue) :=
      if inCtx then
        match pyGetItem ctx name with
        | .error e => .error e
        | .ok a =>
          match a with
          | .obj fields => .ok (lookupKV fields "@id")
          | _ => .ok (some a)
      else .ok none
    match step1 with
    | .error e => .error e
    | .ok a0 =>
      let step2 : Except PyErr JValue :=
        match a0 with
        | some v => if v.truthy then .ok v else synthAnchor pfx name
        | none => synthAnchor pfx name
      match step2 with
      | .error e => .error e
      | .ok anchor =>
        match anchor with
        | .obj _ => .error .typeError
        | .arr _ => .error .typeError
        | _ =>
          if anchor ∈ anchors then .ok (none, anchors)
          else .ok (some anchor, anchor :: anchors)

def urlBase : String := "https://spdx.github.io/spdx-spec/v3.0.1/model/"

/-- The tail of `get_doc_url` once `rdf_uri` and the sub-context are
resolved: split the IRI, build the documentation URL, and validate it
against the network unless already cached (source lines 165–182). -/
def finish_doc_url (net : String → NetResult) (t : String) (rdf sub : JValue)
    (st : RSt) : Except PyErr (Option String × JValue × Option String × RSt) :=
  match rdf with
  | .str u =>
    match rsplit2 u with
    | none => .ok (none, sub, none, st)
    | some (profile, n) =>
      let url := urlBase ++ profile ++ "/" ++ t ++ "/" ++ n
      if url ∈ st.checked_urls then
        .ok (some url, sub, some (lowerAscii t),
             { st with checked_urls := st.checked_urls.insert url })
      else
        match net url with
        | .ok =>
          .ok (some url, sub, some (lowerAscii t),
               { st with checked_urls := st.checked_urls.insert url,
                         netCalls := st.netCalls ++ [url] })
        | .httpError code =>
          if code ≠ 404 then .error (.httpError code)
          else .error (.fatal ("Url '" ++ url ++ " is not valid"))
        | .transport => .error .urlError
  | _ => .error .attributeError

/-- `OutputFile.get_doc_url(typ, name, context)`.  Returns
`(doc_url, sub_context, css_class)` plus the updated state. -/
def get_doc_url (net : String → NetResult) (typ : Option String)
    (name : String) (ctx : JValue) (st : RSt) :
    Except PyErr (Option String × JValue × Option String × RSt) :=
  match pyIn (.str "@vocab") ctx with
  | .error e => .error e
  | .ok true =>
    match pyGetItem ctx (.str "@vocab") with
    | .error e => .error e
    | .ok rdf => finish_doc_url net "Vocabularies" rdf ctx st
  | .ok false =>
    match typ with
    | none => .ok (none, ctx, none, st)
    | some t =>
      match pyIn (.str name) ctx with
      | .error e => .error e
      | .ok false => .ok (none, ctx, none, st)
      | .ok true =>
        match pyGetItem ctx (.str name) with
        | .error e => .error e
        | .ok rdf =>
          match rdf with
          | .obj fields =>
            let sub := (lookupKV fields "@context").getD ctx
            match lookupKV fields "@id" with
            | some v => finish_doc_url net t v sub st
            | none => .ok (none, sub, none, st)
          | _ => finish_doc_url net t rdf ctx st

/-- `self.ids.add(i["externalSpdxId"])` for one import entry. -/
def add_import (ids : List JValue) (entry : JValue) : Except PyErr (List JValue) :=
  match pyGetItem entry (.str "externalSpdxId") with
  | .error e => .error e
  | .ok v => .ok (ids.insert v)

def add_imports : List JValue → List JValue → Except PyErr (List JValue)
  | ids, [] => .ok ids
  | ids, entry :: rest =>
    match add_import ids entry with
    | .error e => .error e
    | .ok ids1 => add_imports ids1 rest

/-- One top-level graph node of `OutputFile.index_data`. -/
def index_node (ids : List JValue) (obj : JValue) : Except PyErr (List JValue) :=
  match get_obj_id obj with
  | .error e => .error e
  | .ok objId =>
    match objId with
    | none => .ok ids
    | some idv =>
      if idv.truthy then
        let ids1 := ids.insert idv
        match pyGetItem obj (.str "type") with
        | .error e => .error e
        | .ok tv =>
          if tv = .str "SpdxDocument" then
            match pyGet obj "import" with
            | .error e => .error e
            | .ok importVal =>
              match pyIter (importVal.getD (.arr [])) with
              | .error e => .error e
              | .ok entries => add_imports ids1 entries
          else .ok ids1
      else .ok ids

def index_list : List JValue → List JValue → Except PyErr (List JValue)
  | ids, [] => .ok ids
  | ids, obj :: rest =>
    match index_node ids obj with
    | .error e => .error e
    | .ok ids1 => index_list ids1 rest

/-- `OutputFile.index_data` over the already-extracted `@graph` node list:
the IdentityIndex. -/
def index_data (graph : List JValue) : Except PyErr (List JValue) :=
  index_list [] graph

/-- Emission of `'<span id="' + html.escape(x) + '">'` guarded by `if x:`
(`html.escape` raises `AttributeError` on a non-string). -/
def idSpan (mk : String → OutTok) (o : Option JValue) : Except PyErr (List OutTok) :=
  match o with
  | none => .ok []
  | some v =>
    if v.truthy then
      match v with
      | .str s => .ok [mk s]
      | _ => .error .attributeError
    else .ok []

def closeSpan (opened : List OutTok) : List OutTok :=
  if opened.isEmpty then [] else [.spanClose]

/-- `css_class or "string"` (Python `or` tests truthiness). -/
def orString (c : Option String) : String :=
  match c with
  | some s => if s.data.isEmpty then "string" else s
  | none => "string"

/-- The class-anchor preamble of `write_obj` (source lines 252-255):
`get_anchor(obj["type"], "class", context)` when `"type" in obj`, else no
anchor. -/
def obj_type_anchor (obj ctx : JValue) (anchors : List JValue) :
    Except PyErr (Option JValue × List JValue) :=
  match pyIn (.str "type") obj with
  | .error e => .error e
  | .ok true =>
    match pyGetItem obj (.str "type") with
    | .error e => .error e
    | .ok tv => get_anchor tv "class" ctx anchors
  | .ok false => .ok (none, anchors)

mutual

/-- `OutputFile.write_value(v, indent, context, typ)`. -/
def write_value (fuel : Nat) (net : String → NetResult) (ids : List JValue)
    (v : JValue) (indent : Nat) (ctx : JValue) (typ : Option String)
    (st : RSt) : Except PyErr (List OutTok × RSt) :=
  match fuel with
  | 0 => .error .outOfFuel
  | fuel + 1 =>
    match v with
    | .str s =>
      match get_doc_url net typ s ctx st with
      | .error e => .error e
      | .ok (docUrl, _, cssClass, st1) =>
        if (JValue.str s) ∈ ids then
          .ok ([.aOpen ("#" ++ s), .strTok s "ident", .aClose], st1)
        else
          match docUrl with
          | some u =>
            .ok ([.aOpen u, .strTok s (cssClass.getD "None"), .aClose], st1)
          | none =>
            if strStarts "http://" s || strStarts "https://" s then
              .ok ([.aOpen s, .strTok s "link", .aClose], st1)
            else
              .ok ([.strTok s "string"], st1)
    | .obj kvs => write_obj fuel net ids (.obj kvs) indent ctx st
    | .arr l => write_list fuel net ids l indent ctx st
    | .bool b => .ok ([.boolTok b], st)
    | .num n => .ok ([.numTok (toString n)], st)
    | .null => .ok ([.numTok "null"], st)
termination_by structural fuel

/-- `OutputFile.write_list(lst, indent, context)`. -/
def write_list (fuel : Nat) (net : String → NetResult) (ids : List JValue)
    (l : List JValue) (indent : Nat) (ctx : JValue) (st : RSt) :
    Except PyErr (List OutTok × RSt) :=
  match fuel with
  | 0 => .error .outOfFuel
  | fuel + 1 =>
    match write_list_items fuel net ids l indent ctx st with
    | .error e => .error e
    | .ok (toks, st1) =>
      .ok ([.lbracket, .nl] ++ toks ++ [.ind indent, .rbracket], st1)
termination_by structural fuel

/-- The element loop of `write_list`: every element but the last is
followed by a comma. -/
def write_list_items (fuel : Nat) (net : String → NetResult)
    (ids : List JValue) (l : List JValue) (indent : Nat) (ctx : JValue)
    (st : RSt) : Except PyErr (List OutTok × RSt) :=
  match fuel with
  | 0 => .error .outOfFuel
  | fuel + 1 =>
    match l with
    | [] => .ok ([], st)
    | [x] =>
      match write_value fuel net ids x (indent + 1) ctx none st with
      | .error e => .error e
      | .ok (toks, st1) => .ok ([.ind (indent + 1)] ++ toks ++ [.nl], st1)
    | x :: y :: rest =>
      match write_value fuel net ids x (indent + 1) ctx none st with
      | .error e => .error e
      | .ok (toks, st1) =>
        match write_list_items fuel net ids (y :: rest) indent ctx st1 with
        | .error e => .error e
        | .ok (toks2, st2) =>
          .ok ([.ind (indent + 1)] ++ toks ++ [.comma, .nl] ++ toks2, st2)
termination_by structural fuel

/-- `OutputFile.write_obj(obj, indent, context)`.  The key loop iterates
the pairs directly: Python dict keys are unique, so `for k in keys` with
`obj[k]` traverses exactly the (key, value) pairs in source order. -/
def write_obj (fuel : Nat) (net : String → NetResult) (ids : List JValue)
    (obj : JValue) (indent : Nat) (ctx : JValue) (st : RSt) :
    Except PyErr (List OutTok × RSt) :=
  match fuel with
  | 0 => .error .outOfFuel
  | fuel + 1 =>
    match obj_type_anchor obj ctx st.anchors with
    | .error e => .error e
    | .ok (anchor, anchors1) =>
      let st1 := { st with anchors := anchors1 }
      match idSpan .spanAnchor anchor with
      | .error e => .error e
      | .ok anchorToks =>
        match get_obj_id obj with
        | .error e => .error e
        | .ok objId =>
          match idSpan .spanId objId with
          | .error e => .error e
          | .ok idToks =>
            match pyGet obj "externalSpdxId" with
            | .error e => .error e
            | .ok ext =>
              match idSpan .spanId ext with
              | .error e => .error e
              | .ok extToks =>
                match obj with
                | .obj kvs =>
                  match write_kvs fuel net ids kvs (indent + 1) ctx st1 with
                  | .error e => .error e
                  | .ok (bodyToks, st2) =>
                    .ok (anchorToks ++ idToks ++ extToks ++
                         [.lbrace, .nl] ++ bodyToks ++ [.ind indent, .rbrace] ++
                         closeSpan extToks ++ closeSpan idToks ++
                         closeSpan anchorToks, st2)
                | _ => .error .attributeError
termination_by structural fuel

/-- The key loop of `write_obj`: every pair but the last is followed by a
comma, and each line is emitted by `write_key_value`. -/
def write_kvs (fuel : Nat) (net : String → NetResult) (ids : List JValue)
    (kvs : List (String × JValue)) (indent : Nat) (ctx : JValue) (st : RSt) :
    Except PyErr (List OutTok × RSt) :=
  match fuel with
  | 0 => .error .outOfFuel
  | fuel + 1 =>
    match kvs with
    | [] => .ok ([], st)
    | [(k, v)] =>
      match write_key_value fuel net ids k v indent ctx st with
      | .error e => .error e
      | .ok (toks, st1) => .ok (toks ++ [.nl], st1)
    | (k, v) :: kv2 :: rest =>
      match write_key_value fuel net ids k v indent ctx st with
      | .error e => .error e
      | .ok (toks, st1) =>
        match write_kvs fuel net ids (kv2 :: rest) indent ctx st1 with
        | .error e => .error e
        | .ok (toks2, st2) => .ok (toks ++ [.comma, .nl] ++ toks2, st2)
termination_by structural fuel

/-- `OutputFile.write_key_value(k, v, indent, context)`. -/
def write_key_value (fuel : Nat) (net : String → NetResult)
    (ids : List JValue) (k : String) (v : JValue) (indent : Nat)
    (ctx : JValue) (st : RSt) : Except PyErr (List OutTok × RSt) :=
  match fuel with
  | 0 => .error .outOfFuel
  | fuel + 1 =>
    match get_anchor (.str k) "property" ctx st.anchors with
    | .error e => .error e
    | .ok (anchor, anchors1) =>
      let st1 := { st with anchors := anchors1 }
      match idSpan .spanAnchor anchor with
      | .error e => .error e
      | .ok aToks =>
        match get_doc_url net (some "Properties") k ctx st1 with
        | .error e => .error e
        | .ok (docUrl, subCtx, cssClass, st2) =>
          let keyToks : List OutTok :=
            match docUrl with
            | some u => [.aOpen u, .strTok k (orString cssClass), .aClose]
            | none => [.strTok k (orString cssClass)]
          let typ : Option String := if k == "type" then some "Classes" else none
          match write_value fuel net ids v indent subCtx typ st2 with
          | .error e => .error e
          | .ok (vToks, st3) =>
            .ok (aToks ++ [.ind indent] ++ keyToks ++ [.colon] ++ vToks ++
                 closeSpan aToks, st3)
termination_by structural fuel

end

/-- `OutputFile.write()` minus the fixed page chrome (legend table and
`<pre>` wrapper, which are constant strings outside the core): build the
IdentityIndex from `@graph`, then render the whole document under the
fetched context's inner `@context` mapping, starting from empty
render-instance state. -/
def render (fuel : Nat) (net : String → NetResult) (data context : JValue) :
    Except PyErr (List OutTok × RSt) :=
  match pyGet data "@graph" with
  | .error e => .error e
  | .ok graphVal =>
    match pyIter (graphVal.getD (.arr [])) with
    | .error e => .error e
    | .ok graph =>
      match index_data graph with
      | .error e => .error e
      | .ok ids =>
        match pyGetItem context (.str "@context") with
        | .error e => .error e
        | .ok ctx =>
          write_obj fuel net ids data 0 ctx
            { anchors := [], checked_urls := [], netCalls := [] }

/-- A network oracle under which every URL exists. -/
def netAllOk : String → NetResult := fun _ => .ok

/-- A network oracle answering `r` at `u` and success elsewhere. -/
def netWith (u : String) (r : NetResult) : String → NetResult :=
  fun x => if x == u then r else .ok

/-- The empty render-instance state (a fresh `OutputFile`). -/
def emptySt : RSt := { anchors := [], checked_urls := [], netCalls := [] }

/-- Invariant of the render state tying the network-call log to the URL
cache: no URL was sent to the network twice, and every URL sent is now
cached. -/
def GoodState (st : RSt) : Prop :=
  st.netCalls.Nodup ∧ ∀ u ∈ st.netCalls, u ∈ st.checked_urls

/-- Scan structural tokens keeping separate open-brace and open-bracket
depths; `none` when a closing token arrives at depth zero. -/
def balRun : Nat → Nat → List OutTok → Option (Nat × Nat)
  | b, k, [] => some (b, k)
  | b, k, t :: rest =>
    match t with
    | .lbrace => balRun (b + 1) k rest
    | .rbrace =>
      match b with
      | 0 => none
      | b + 1 => balRun b k rest
    | .lbracket => balRun b (k + 1) rest
    | .rbracket =>
      match k with
      | 0 => none
      | k + 1 => balRun b k rest
    | _ => balRun b k rest

/-- A token list whose structural tokens are balanced: no prefix closes
more braces (resp. brackets) than were opened, and both depths return to
zero at the end. -/
def Bal (l : List OutTok) : Prop := balRun 0 0 l = some (0, 0)

/-- The allocator-assigned anchor ids occurring in a token list. -/
def anchorIds : List OutTok → List String
  | [] => []
  | .spanAnchor s :: rest => s :: anchorIds rest
  | _ :: rest => anchorIds rest

/-- All initial segments of a list, shortest first. -/
def prefixesOf {α : Type} : List α → List (List α)
  | [] => [[]]
  | x :: xs => [] :: (prefixesOf xs).map (fun p => x :: p)

/-- Join per-pair token segments the way the `write_obj`/`write_kvs` key
loop does: every segment but the last is followed by a comma, each by a
newline. -/
def joinKV : List (List OutTok) → List OutTok
  | [] => []
  | [s1] => s1 ++ [.nl]
  | s1 :: s2 :: rest => s1 ++ [.comma, .nl] ++ joinKV (s2 :: rest)

/-- `obj` contributes `x` to the IdentityIndex directly: it carries a
truthy identifier equal to `x` (phrased from the spec for the refinement
statement of the index). -/
def contributesId (obj x : JValue) : Prop :=
  ∃ v, get_obj_id obj = .ok (some v) ∧ v.truthy ∧ x = v

/-- `obj` contributes `x` to the IdentityIndex through its import list:
it carries a truthy identifier, its type is "SpdxDocument", and some of
its import entries has `externalSpdxId` equal to `x` (phrased from the
spec for the refinement statement of the index). -/
def contributesImport (obj x : JValue) : Prop :=
  (∃ v, get_obj_id obj = .ok (some v) ∧ v.truthy) ∧
  (∃ kvs, obj = .obj kvs ∧ lookupKV kvs "type" = some (.str "SpdxDocument") ∧
    ∃ entries, pyIter ((lookupKV kvs "import").getD (.arr [])) = .ok entries ∧
      ∃ e ∈ entries, pyGetItem e (.str "externalSpdxId") = .ok x)

/-- `true` on token lists containing no structural brace/bracket token. -/
def structFree (l : List OutTok) : Bool :=
  l.all fun t =>
    match t with
    | .lbrace => false
    | .rbrace => false
    | .lbracket => false
    | .rbracket => false
    | _ => true

/-- Combined postcondition of one renderer call that emitted `toks` and
took the state from `st` to `stF`: the network-log invariant is
preserved, the anchor set only grows, the emitted fragment is balanced,
and its allocator anchors are mutually distinct, new, and recorded. -/
def Post (st : RSt) (toks : List OutTok) (stF : RSt) : Prop :=
  (GoodState st → GoodState stF) ∧
  (∀ a ∈ st.anchors, a ∈ stF.anchors) ∧
  Bal toks ∧
  (anchorIds toks).Nodup ∧
  (∀ a ∈ anchorIds toks, JValue.str a ∈ stF.anchors ∧ JValue.str a ∉ st.anchors)

/-! Helper lemmas shared by the claim theorems. -/

theorem lookupKV_any_eq (kvs : List (String × JValue)) (key : String) :
    (kvs.any fun kv => kv.1 == key) = (lookupKV kvs key).isSome := by
  induction kvs with
  | nil => rfl
  | cons kv rest ih =>
    by_cases h : kv.1 = key
    · simp [lookupKV, h]
    · simp [lookupKV, h, ih]

theorem truthy_str_of_ne (s : String) (h : s.data ≠ []) :
    (JValue.str s).truthy = true := by
  cases hd : s.data with
  | nil => exact absurd hd h
  | cons c cs => simp [JValue.truthy, hd]

/-- C7 as stated is false: for a name whose context entry is a plain
(non-empty) IRI string, the candidate anchor is that IRI itself, not the
synthesized `prefix + "-" + name`.  Here `"n"` maps to the plain string
`"http://x/y"`; the allocated anchor is `"http://x/y"`, which differs
from `"property-n"`. -/
theorem c7_counterexample_plain_string_entry :
    get_anchor (.str "n") "property" (.obj [("n", .str "http://x/y")]) [] =
      .ok (some (.str "http://x/y"), [.str "http://x/y"]) ∧
    JValue.str "http://x/y" ≠ JValue.str ("property" ++ "-" ++ "n") := by
  exact ⟨by decide, by decide⟩

/-- C7 (amended): the anchor candidate is the descriptor's explicit
`@id` IRI when the context entry is a descriptor object carrying a
non-empty `@id` string; it is the entry itself when the entry is a plain
non-empty IRI string; and it is the synthesized `prefix + "-" + name`
when the name is absent from the context.  In every case the candidate
is allocated only if not already in the anchor set. -/
theorem c7_amended_candidate (name pfx : String)
    (kvs : List (String × JValue)) (anchors : List JValue) :
    (∀ d s, lookupKV kvs name = some (.obj d) →
      lookupKV d "@id" = some (.str s) → s.data ≠ [] →
      get_anchor (.str name) pfx (.obj kvs) anchors =
        .ok (if JValue.str s ∈ anchors then (none, anchors)
             else (some (.str s), .str s :: anchors))) ∧
    (∀ s, lookupKV kvs name = some (.str s) → s.data ≠ [] →
      get_anchor (.str name) pfx (.obj kvs) anchors =
        .ok (if JValue.str s ∈ anchors then (none, anchors)
             else (some (.str s), .str s :: anchors))) ∧
    (lookupKV kvs name = none →
      get_anchor (.str name) pfx (.obj kvs) anchors =
        .ok (if JValue.str (pfx ++ "-" ++ name) ∈ anchors then (none, anchors)
             else (some (.str (pfx ++ "-" ++ name)),
                   .str (pfx ++ "-" ++ name) :: anchors))) := by
  refine ⟨?_, ?_, ?_⟩
  · intro d s hd hid hs
    simp only [get_anchor, pyIn, lookupKV_any_eq, hd, pyGetItem,
      Option.isSome_some, truthy_str_of_ne s hs, synthAnchor]
    by_cases hmem : JValue.str s ∈ anchors <;>
      simp [hid, hmem, truthy_str_of_ne s hs]
  · intro s hn hs
    simp only [get_anchor, pyIn, lookupKV_any_eq, hn, pyGetItem,
      Option.isSome_some, truthy_str_of_ne s hs, synthAnchor]
    by_cases hmem : JValue.str s ∈ anchors <;>
      simp [hmem, truthy_str_of_ne s hs]
  · intro hn
    simp only [get_anchor, pyIn, lookupKV_any_eq, hn, pyGetItem,
      Option.isSome_none, synthAnchor]
    by_cases hmem : JValue.str (pfx ++ "-" ++ name) ∈ anchors <;> simp [hmem]

/-- Closed instance of the amended C7 statement at the counterexample
input (plain-string entry, empty anchor set). -/
theorem c7_amended_candidate_witness :
    get_anchor (.str "n") "property" (.obj [("n", .str "http://x/y")]) [] =
      .ok (if JValue.str "http://x/y" ∈ ([] : List JValue) then (none, [])
           else (some (.str "http://x/y"), [.str "http://x/y"])) :=
  (c7_amended_candidate "n" "property" [("n", .str "http://x/y")] []).2.1
    "http://x/y" (by decide) (by decide)

/-- C6 as stated is false: under a generic vocabulary (`@vocab`), the
documentation URL is built from the last two segments of the vocabulary
IRI itself and does not depend on the name being resolved.  Resolving
two different names under `@vocab =
"https://spdx.org/rdf/3.0.1/terms/Core/VocabName/"` yields the same URL
`…/model/Core/Vocabularies/VocabName`, not the name-dependent
`…/model/VocabName/Vocabularies/myname` the claim prescribes. -/
theorem c6_counterexample_vocab_url_ignores_name :
    get_doc_url netAllOk (some "Properties") "myname"
        (.obj [("@vocab", .str "https://spdx.org/rdf/3.0.1/terms/Core/VocabName/")])
        emptySt =
      .ok (some "https://spdx.github.io/spdx-spec/v3.0.1/model/Core/Vocabularies/VocabName",
           .obj [("@vocab", .str "https://spdx.org/rdf/3.0.1/terms/Core/VocabName/")],
           some "vocabularies",
           { anchors := [],
             checked_urls :=
               ["https://spdx.github.io/spdx-spec/v3.0.1/model/Core/Vocabularies/VocabName"],
             netCalls :=
               ["https://spdx.github.io/spdx-spec/v3.0.1/model/Core/Vocabularies/VocabName"] }) ∧
    get_doc_url netAllOk (some "Properties") "othername"
        (.obj [("@vocab", .str "https://spdx.org/rdf/3.0.1/terms/Core/VocabName/")])
        emptySt =
      .ok (some "https://spdx.github.io/spdx-spec/v3.0.1/model/Core/Vocabularies/VocabName",
           .obj [("@vocab", .str "https://spdx.org/rdf/3.0.1/terms/Core/VocabName/")],
           some "vocabularies",
           { anchors := [],
             checked_urls :=
               ["https://spdx.github.io/spdx-spec/v3.0.1/model/Core/Vocabularies/VocabName"],
             netCalls :=
               ["https://spdx.github.io/spdx-spec/v3.0.1/model/Core/Vocabularies/VocabName"] }) ∧
    "https://spdx.github.io/spdx-spec/v3.0.1/model/Core/Vocabularies/VocabName" ≠
      "https://spdx.github.io/spdx-spec/v3.0.1/model/VocabName/Vocabularies/myname" := by
  exact ⟨by decide, by decide, by decide⟩

/-- C6 (amended): when the context declares `@vocab`, resolution ignores
both the requested kind and the name entirely (the result is the same
for any two names), the returned sub-context is the context itself, the
cssKind is "vocabularies", and a returned documentation URL has the form
`{base}{profile}/Vocabularies/{localName}` where `{profile}` and
`{localName}` are the last two `/`-delimited segments of the vocabulary
IRI itself. -/
theorem c6_amended_vocab_resolution (net : String → NetResult)
    (typ typ' : Option String) (name name' : String)
    (kvs : List (String × JValue)) (w : JValue) (st : RSt)
    (hw : lookupKV kvs "@vocab" = some w) :
    get_doc_url net typ name (.obj kvs) st =
      get_doc_url net typ' name' (.obj kvs) st ∧
    (∀ vs u sub css st', w = .str vs →
      get_doc_url net typ name (.obj kvs) st = .ok (u, sub, css, st') →
      sub = .obj kvs ∧
      ∀ us, u = some us → css = some "vocabularies" ∧
        ∃ p n, rsplit2 vs = some (p, n) ∧
          us = urlBase ++ p ++ "/" ++ "Vocabularies" ++ "/" ++ n) := by
  constructor
  · simp only [get_doc_url, pyIn, lookupKV_any_eq, hw, Option.isSome_some,
      pyGetItem]
  · intro vs u sub css st' hws hok
    subst hws
    simp only [get_doc_url, pyIn, lookupKV_any_eq, hw, Option.isSome_some,
      pyGetItem, finish_doc_url] at hok
    split at hok
    · simp only [Except.ok.injEq, Prod.mk.injEq] at hok
      obtain ⟨h1, h2, h3, h4⟩ := hok
      subst h1
      subst h2
      exact ⟨rfl, fun us h => absurd h (by simp)⟩
    · rename_i p n hsp
      split at hok
      · simp only [Except.ok.injEq, Prod.mk.injEq] at hok
        obtain ⟨h1, h2, h3, h4⟩ := hok
        subst h1
        subst h2
        subst h3
        refine ⟨rfl, ?_⟩
        intro us h
        obtain rfl : urlBase ++ p ++ "/" ++ "Vocabularies" ++ "/" ++ n = us :=
          by simpa using h
        exact ⟨by decide, p, n, hsp, rfl⟩
      · split at hok
        · simp only [Except.ok.injEq, Prod.mk.injEq] at hok
          obtain ⟨h1, h2, h3, h4⟩ := hok
          subst h1
          subst h2
          subst h3
          refine ⟨rfl, ?_⟩
          intro us h
          obtain rfl : urlBase ++ p ++ "/" ++ "Vocabularies" ++ "/" ++ n = us :=
            by simpa using h
          exact ⟨by decide, p, n, hsp, rfl⟩
        · split at hok <;> exact absurd hok (by simp)
        · exact absurd hok (by simp)

/-- Closed instance of the amended C6 statement: at the concrete
vocabulary context, the two resolutions agree and the URL decomposes as
stated. -/
theorem c6_amended_vocab_resolution_witness :
    get_doc_url netAllOk (some "Properties") "myname"
        (.obj [("@vocab", .str "https://spdx.org/rdf/3.0.1/terms/Core/VocabName/")])
        emptySt =
      get_doc_url netAllOk none "othername"
        (.obj [("@vocab", .str "https://spdx.org/rdf/3.0.1/terms/Core/VocabName/")])
        emptySt :=
  (c6_amended_vocab_resolution netAllOk (some "Properties") none "myname"
    "othername" [("@vocab", .str "https://spdx.org/rdf/3.0.1/terms/Core/VocabName/")]
    (.str "https://spdx.org/rdf/3.0.1/terms/Core/VocabName/") emptySt (by decide)).1

/-- C4: validating an uncached documentation URL: an HTTP 404 aborts with
an error whose message names that exact URL (`Url '{url} is not valid`);
any other HTTP failure status propagates as that HTTP error; a transport
failure propagates as the transport error; and the outcome depends on
the oracle only through its single answer at that URL (no retry). -/
theorem c4_validation_failures (net netB : String → NetResult)
    (t name iri p n : String) (kvs : List (String × JValue)) (st : RSt)
    (hnv : lookupKV kvs "@vocab" = none)
    (hname : lookupKV kvs name = some (.str iri))
    (hsplit : rsplit2 iri = some (p, n))
    (hunc : urlBase ++ p ++ "/" ++ t ++ "/" ++ n ∉ st.checked_urls) :
    (net (urlBase ++ p ++ "/" ++ t ++ "/" ++ n) = .httpError 404 →
      get_doc_url net (some t) name (.obj kvs) st =
        .error (.fatal ("Url '" ++ (urlBase ++ p ++ "/" ++ t ++ "/" ++ n) ++
          " is not valid"))) ∧
    (∀ c, c ≠ 404 → net (urlBase ++ p ++ "/" ++ t ++ "/" ++ n) = .httpError c →
      get_doc_url net (some t) name (.obj kvs) st = .error (.httpError c)) ∧
    (net (urlBase ++ p ++ "/" ++ t ++ "/" ++ n) = .transport →
      get_doc_url net (some t) name (.obj kvs) st = .error .urlError) ∧
    (net (urlBase ++ p ++ "/" ++ t ++ "/" ++ n) =
        netB (urlBase ++ p ++ "/" ++ t ++ "/" ++ n) →
      get_doc_url net (some t) name (.obj kvs) st =
        get_doc_url netB (some t) name (.obj kvs) st) := by
  refine ⟨?_, ?_, ?_, ?_⟩
  · intro h
    simp only [get_doc_url, pyIn, lookupKV_any_eq, hnv, hname,
      Option.isSome_some, Option.isSome_none, pyGetItem, finish_doc_url,
      hsplit, if_neg hunc, h]
    simp
  · intro c hc h
    simp only [get_doc_url, pyIn, lookupKV_any_eq, hnv, hname,
      Option.isSome_some, Option.isSome_none, pyGetItem, finish_doc_url,
      hsplit, if_neg hunc, h]
    simp [hc]
  · intro h
    simp only [get_doc_url, pyIn, lookupKV_any_eq, hnv, hname,
      Option.isSome_some, Option.isSome_none, pyGetItem, finish_doc_url,
      hsplit, if_neg hunc, h]
  · intro h
    simp only [get_doc_url, pyIn, lookupKV_any_eq, hnv, hname,
      Option.isSome_some, Option.isSome_none, pyGetItem, finish_doc_url,
      hsplit, if_neg hunc, h]

/-- Closed instance of C4 at a concrete context and a 404-answering
oracle: the render-fatal error names the offending URL. -/
theorem c4_validation_failures_witness :
    get_doc_url
        (netWith "https://spdx.github.io/spdx-spec/v3.0.1/model/b/Properties/c"
          (.httpError 404))
        (some "Properties") "k" (.obj [("k", .str "https://a/b/c")]) emptySt =
      .error (.fatal ("Url '" ++
        ("https://spdx.github.io/spdx-spec/v3.0.1/model/" ++ "b" ++ "/" ++
          "Properties" ++ "/" ++ "c") ++ " is not valid")) :=
  (c4_validation_failures
    (netWith "https://spdx.github.io/spdx-spec/v3.0.1/model/b/Properties/c"
      (.httpError 404))
    netAllOk "Properties" "k" "https://a/b/c" "b" "c"
    [("k", .str "https://a/b/c")] emptySt (by decide) (by decide) (by decide)
    (by decide)).1 (by decide)

theorem get_obj_id_shape (obj : JValue) (o : Option JValue)
    (h : get_obj_id obj = .ok o) : ∃ kvs, obj = .obj kvs := by
  cases obj <;> first
    | exact ⟨_, rfl⟩
    | simp [get_obj_id, pyGet] at h

theorem add_imports_mem : ∀ (l : List JValue) (acc acc' : List JValue),
    add_imports acc l = .ok acc' →
    ∀ x, x ∈ acc' ↔
      x ∈ acc ∨ ∃ e ∈ l, pyGetItem e (.str "externalSpdxId") = .ok x := by
  intro l
  induction l with
  | nil =>
    intro acc acc' h x
    simp only [add_imports, Except.ok.injEq] at h
    subst h
    simp
  | cons e rest ih =>
    intro acc acc' h x
    simp only [add_imports, add_import] at h
    cases hg : pyGetItem e (.str "externalSpdxId") with
    | error er => rw [hg] at h; exact absurd h (by simp)
    | ok v =>
      rw [hg] at h
      rw [ih _ _ h x, List.mem_insert_iff]
      constructor
      · rintro ((rfl | hx) | ⟨e2, he2, hx⟩)
        · exact Or.inr ⟨e, by simp, hg⟩
        · exact Or.inl hx
        · exact Or.inr ⟨e2, by simp [he2], hx⟩
      · rintro (hx | ⟨e2, he2, hx⟩)
        · exact Or.inl (Or.inr hx)
        · rcases List.mem_cons.mp he2 with rfl | he2
          · rw [hg] at hx
            exact Or.inl (Or.inl (by simpa using hx.symm))
          · exact Or.inr ⟨e2, he2, hx⟩

theorem index_node_mem (acc : List JValue) (obj : JValue)
    (acc' : List JValue) (h : index_node acc obj = .ok acc') (x : JValue) :
    x ∈ acc' ↔ x ∈ acc ∨ contributesId obj x ∨ contributesImport obj x := by
  obtain ⟨kvs, rfl⟩ : ∃ kvs, obj = .obj kvs := by
    unfold index_node at h
    cases hg : get_obj_id obj with
    | error e => rw [hg] at h; exact absurd h (by simp)
    | ok o => exact get_obj_id_shape obj o hg
  unfold index_node at h
  cases hg : get_obj_id (.obj kvs) with
  | error e => rw [hg] at h; exact absurd h (by simp)
  | ok o =>
    rw [hg] at h
    cases o with
    | none =>
      simp only [Except.ok.injEq] at h
      subst h
      simp [contributesId, contributesImport, hg]
    | some idv =>
      simp only [] at h
      by_cases ht : idv.truthy = true
      · rw [if_pos ht] at h
        cases hty : lookupKV kvs "type" with
        | none =>
          rw [show pyGetItem (.obj kvs) (.str "type") =
                .error (.keyError "type") by simp [pyGetItem, hty]] at h
          exact absurd h (by simp)
        | some tv =>
          rw [show pyGetItem (.obj kvs) (.str "type") = .ok tv by
                simp [pyGetItem, hty]] at h
          simp only [] at h
          by_cases htv : tv = .str "SpdxDocument"
          · rw [if_pos htv] at h
            rw [show pyGet (.obj kvs) "import" =
                  .ok (lookupKV kvs "import") from rfl] at h
            simp only [] at h
            cases hit : pyIter ((lookupKV kvs "import").getD (.arr [])) with
            | error e => rw [hit] at h; exact absurd h (by simp)
            | ok entries =>
              rw [hit] at h
              simp only [] at h
              rw [add_imports_mem entries _ _ h x, List.mem_insert_iff]
              subst htv
              simp [contributesId, contributesImport, hg, hty, hit, ht]
              all_goals tauto
          · rw [if_neg htv] at h
            simp only [Except.ok.injEq] at h
            subst h
            rw [List.mem_insert_iff]
            simp [contributesId, contributesImport, hg, hty, htv, ht]
            all_goals tauto
      · rw [if_neg ht] at h
        simp only [Except.ok.injEq] at h
        subst h
        simp [contributesId, contributesImport, hg, ht]

theorem index_list_mem : ∀ (g : List JValue) (acc acc' : List JValue),
    index_list acc g = .ok acc' →
    ∀ x, x ∈ acc' ↔
      x ∈ acc ∨ ∃ obj ∈ g, contributesId obj x ∨ contributesImport obj x := by
  intro g
  induction g with
  | nil =>
    intro acc acc' h x
    simp only [index_list, Except.ok.injEq] at h
    subst h
    simp
  | cons obj rest ih =>
    intro acc acc' h x
    simp only [index_list] at h
    cases hn : index_node acc obj with
    | error e => rw [hn] at h; exact absurd h (by simp)
    | ok acc1 =>
      rw [hn] at h
      rw [ih _ _ h x, index_node_mem acc obj acc1 hn x]
      constructor
      · rintro ((hx | hc) | ⟨o2, ho2, hc⟩)
        · exact Or.inl hx
        · exact Or.inr ⟨obj, by simp, hc⟩
        · exact Or.inr ⟨o2, by simp [ho2], hc⟩
      · rintro (hx | ⟨o2, ho2, hc⟩)
        · exact Or.inl (Or.inl hx)
        · rcases List.mem_cons.mp ho2 with rfl | ho2
          · exact Or.inl (Or.inr hc)
          · exact Or.inr ⟨o2, ho2, hc⟩

/-- C5 as stated is false: a top-level node of type "SpdxDocument" that
carries no identifier is skipped entirely, so the external identifiers of
its imports are not indexed, although the claim requires indexing
the import lists of every SpdxDocument-typed node.  Here the single graph
node is an SpdxDocument with an import whose `externalSpdxId` is `"e"`,
yet the built index is empty. -/
theorem c5_counterexample_idless_spdxdocument :
    index_data [.obj [("type", .str "SpdxDocument"),
      ("import", .arr [.obj [("externalSpdxId", .str "e")]])]] = .ok [] := by
  decide

/-- C5 (amended): the IdentityIndex contains exactly the truthy
`@id`/`spdxId` identifiers of the top-level nodes, unioned with the
`externalSpdxId` of every import entry of those nodes whose type equals
"SpdxDocument" AND which themselves carry a truthy identifier; nodes
without a truthy identifier are skipped entirely, imports included. -/
theorem c5_amended_index_members (graph : List JValue) (ids : List JValue)
    (h : index_data graph = .ok ids) (x : JValue) :
    x ∈ ids ↔ ∃ obj ∈ graph, contributesId obj x ∨ contributesImport obj x := by
  have := index_list_mem graph [] ids h x
  simpa using this

/-- Closed instance of the amended C5 statement: for a one-node graph the
index contains exactly that node's identifier. -/
theorem c5_amended_index_members_witness :
    (JValue.str "x") ∈ ([JValue.str "x"] : List JValue) ↔
      ∃ obj ∈ [JValue.obj [("@id", .str "x"), ("type", .str "T")]],
        contributesId obj (.str "x") ∨ contributesImport obj (.str "x") :=
  c5_amended_index_members [.obj [("@id", .str "x"), ("type", .str "T")]]
    [.str "x"] (by decide) (.str "x")

theorem index_list_append (l1 l2 : List JValue) (acc : List JValue) :
    index_list acc (l1 ++ l2) =
      match index_list acc l1 with
      | .ok acc1 => index_list acc1 l2
      | .error e => .error e := by
  induction l1 generalizing acc with
  | nil => simp [index_list]
  | cons obj rest ih =>
    simp only [List.cons_append, index_list]
    cases hn : index_node acc obj with
    | error e => simp
    | ok acc1 => simpa using ih acc1

/-- C10: a top-level graph node that carries a truthy identifier but has
no `"type"` key makes `index_data` fail with `KeyError "type"` (the type
lookup is unguarded for identified nodes), the whole index build and the
render abort, while a node without a truthy identifier never reaches the
type lookup and is skipped without error. -/
theorem c10_unguarded_type_lookup (kvs : List (String × JValue))
    (idv : JValue) (g1 g2 : List JValue)
    (hid : get_obj_id (.obj kvs) = .ok (some idv)) (htr : idv.truthy = true)
    (hntype : lookupKV kvs "type" = none) :
    (∀ acc, index_node acc (.obj kvs) = .error (.keyError "type")) ∧
    (∃ e, index_data (g1 ++ .obj kvs :: g2) = .error e) ∧
    (∀ fuel net context dkvs,
      lookupKV dkvs "@graph" = some (.arr (g1 ++ .obj kvs :: g2)) →
      ∃ e, render fuel net (.obj dkvs) context = .error e) ∧
    (∀ acc kvs2 o, get_obj_id (.obj kvs2) = .ok o →
      (∀ w, o = some w → w.truthy = false) →
      index_node acc (.obj kvs2) = .ok acc) := by
  have hnode : ∀ acc, index_node acc (.obj kvs) = .error (.keyError "type") := by
    intro acc
    unfold index_node
    rw [hid]
    simp only []
    rw [if_pos htr]
    rw [show pyGetItem (.obj kvs) (.str "type") = .error (.keyError "type") by
      simp [pyGetItem, hntype]]
  have hdata : ∃ e, index_data (g1 ++ .obj kvs :: g2) = .error e := by
    unfold index_data
    rw [index_list_append]
    cases h1 : index_list [] g1 with
    | error e => exact ⟨e, rfl⟩
    | ok acc1 =>
      refine ⟨.keyError "type", ?_⟩
      simp only [index_list, hnode acc1]
  refine ⟨hnode, hdata, ?_, ?_⟩
  · intro fuel net context dkvs hgr
    unfold render
    rw [show pyGet (.obj dkvs) "@graph" = .ok (lookupKV dkvs "@graph") from rfl,
      hgr]
    simp only [Option.getD_some, pyIter]
    obtain ⟨e, he⟩ := hdata
    rw [he]
    exact ⟨e, rfl⟩
  · intro acc kvs2 o hid2 hfalsy
    unfold index_node
    rw [hid2]
    cases o with
    | none => simp
    | some w =>
      simp only []
      rw [if_neg (by simp [hfalsy w rfl])]

/-- Closed instance of C10: a node `{"@id": "x"}` with no type key
yields `KeyError "type"`. -/
theorem c10_unguarded_type_lookup_witness :
    index_node [] (.obj [("@id", .str "x")]) = .error (.keyError "type") :=
  (c10_unguarded_type_lookup [("@id", .str "x")] (.str "x") [] []
    (by decide) (by decide) (by decide)).1 []

/-- C1: a string value that is a member of the IdentityIndex always
renders as a same-page reference — a hyperlink to `#value` with the
identifier style — never as a documentation link, a generic URL link, or
a plain literal, regardless of what `get_doc_url` resolved or whether
the value starts with `http://`/`https://`. -/
theorem c1_identity_renders_local (fuel : Nat) (net : String → NetResult)
    (ids : List JValue) (s : String) (indent : Nat) (ctx : JValue)
    (typ : Option String) (st : RSt) (toks : List OutTok) (stF : RSt)
    (hmem : JValue.str s ∈ ids)
    (hok : write_value fuel net ids (.str s) indent ctx typ st = .ok (toks, stF)) :
    toks = [.aOpen ("#" ++ s), .strTok s "ident", .aClose] := by
  cases fuel with
  | zero => simp [write_value] at hok
  | succ n =>
    simp only [write_value] at hok
    cases hg : get_doc_url net typ s ctx st with
    | error e => rw [hg] at hok; exact absurd hok (by simp)
    | ok r =>
      obtain ⟨docUrl, sub, css, st1⟩ := r
      rw [hg] at hok
      simp only [] at hok
      rw [if_pos hmem] at hok
      simp only [Except.ok.injEq, Prod.mk.injEq] at hok
      exact hok.1.symm

/-- Closed instance of C1 at a value that is in the index, starts with
`http://`, and also resolves to a documentation URL: it still renders as
the same-page `#` reference. -/
theorem c1_identity_renders_local_witness :
    JValue.str "http://a/b/c" ∈ [JValue.str "http://a/b/c"] ∧
    ([OutTok.aOpen "#http://a/b/c", OutTok.strTok "http://a/b/c" "ident",
      OutTok.aClose] : List OutTok) =
      [.aOpen ("#" ++ "http://a/b/c"), .strTok "http://a/b/c" "ident",
       .aClose] :=
  ⟨by simp,
   c1_identity_renders_local 5 netAllOk [.str "http://a/b/c"] "http://a/b/c" 0
     (.obj [("http://a/b/c", .str "https://x/y/z")]) (some "Properties")
     emptySt
     [OutTok.aOpen "#http://a/b/c", OutTok.strTok "http://a/b/c" "ident",
      OutTok.aClose]
     { anchors := [],
       checked_urls := ["https://spdx.github.io/spdx-spec/v3.0.1/model/y/Properties/z"],
       netCalls := ["https://spdx.github.io/spdx-spec/v3.0.1/model/y/Properties/z"] }
     (by simp) (by decide)⟩

/-- C2 as stated is false: node-identifier id spans are emitted verbatim
for every rendered node, so two graph nodes sharing `@id = "x"` produce
the DOM id `x` twice in one render (both tokens render as
`<span id="x">`). -/
theorem c2_counterexample_duplicate_node_id :
    (render 20 netAllOk
      (.obj [("@context", .str "u"),
             ("@graph", .arr [.obj [("@id", .str "x"), ("type", .str "T")],
                              .obj [("@id", .str "x"), ("type", .str "T")]])])
      (.obj [("@context", .obj [])])).map
        (fun p => p.1.count (OutTok.spanId "x")) = .ok 2 := by
  decide

theorem balRun_append (l1 l2 : List OutTok) : ∀ b k,
    balRun b k (l1 ++ l2) =
      match balRun b k l1 with
      | some (b1, k1) => balRun b1 k1 l2
      | none => none := by
  induction l1 with
  | nil => intro b k; simp [balRun]
  | cons t rest ih =>
    intro b k
    cases t with
    | rbrace =>
      cases b with
      | zero => simp [balRun]
      | succ b2 => simpa [balRun] using ih b2 k
    | rbracket =>
      cases k with
      | zero => simp [balRun]
      | succ k2 => simpa [balRun] using ih b k2
    | lbrace => simpa [balRun] using ih (b + 1) k
    | lbracket => simpa [balRun] using ih b (k + 1)
    | colon => simpa [balRun] using ih b k
    | comma => simpa [balRun] using ih b k
    | nl => simpa [balRun] using ih b k
    | ind n => simpa [balRun] using ih b k
    | spanAnchor s => simpa [balRun] using ih b k
    | spanId s => simpa [balRun] using ih b k
    | spanClose => simpa [balRun] using ih b k
    | aOpen u => simpa [balRun] using ih b k
    | aClose => simpa [balRun] using ih b k
    | strTok s c => simpa [balRun] using ih b k
    | boolTok b2 => simpa [balRun] using ih b k
    | numTok s => simpa [balRun] using ih b k

theorem balRun_shift (l : List OutTok) : ∀ b k b2 k2 m m2,
    balRun b k l = some (b2, k2) →
    balRun (b + m) (k + m2) l = some (b2 + m, k2 + m2) := by
  induction l with
  | nil =>
    intro b k b2 k2 m m2 h
    simp only [balRun, Option.some.injEq, Prod.mk.injEq] at h ⊢
    omega
  | cons t rest ih =>
    intro b k b2 k2 m m2 h
    cases t with
    | lbrace =>
      simp only [balRun] at h ⊢
      have := ih (b + 1) k b2 k2 m m2 h
      rw [show b + 1 + m = b + m + 1 by omega] at this
      exact this
    | rbrace =>
      cases b with
      | zero => simp [balRun] at h
      | succ b3 =>
        simp only [balRun] at h ⊢
        rw [show b3 + 1 + m = b3 + m + 1 by omega]
        exact ih b3 k b2 k2 m m2 h
    | lbracket =>
      simp only [balRun] at h ⊢
      have := ih b (k + 1) b2 k2 m m2 h
      rw [show k + 1 + m2 = k + m2 + 1 by omega] at this
      exact this
    | rbracket =>
      cases k with
      | zero => simp [balRun] at h
      | succ k3 =>
        simp only [balRun] at h ⊢
        rw [show k3 + 1 + m2 = k3 + m2 + 1 by omega]
        exact ih b k3 b2 k2 m m2 h
    | colon => exact ih b k b2 k2 m m2 h
    | comma => exact ih b k b2 k2 m m2 h
    | nl => exact ih b k b2 k2 m m2 h
    | ind n => exact ih b k b2 k2 m m2 h
    | spanAnchor s => exact ih b k b2 k2 m m2 h
    | spanId s => exact ih b k b2 k2 m m2 h
    | spanClose => exact ih b k b2 k2 m m2 h
    | aOpen u => exact ih b k b2 k2 m m2 h
    | aClose => exact ih b k b2 k2 m m2 h
    | strTok s c => exact ih b k b2 k2 m m2 h
    | boolTok b2x => exact ih b k b2 k2 m m2 h
    | numTok s => exact ih b k b2 k2 m m2 h

theorem Bal_append (a b : List OutTok) (ha : Bal a) (hb : Bal b) :
    Bal (a ++ b) := by
  unfold Bal at *
  rw [balRun_append, ha]
  simpa using hb

theorem Bal_nil : Bal [] := rfl

theorem Bal_braceWrap (mid : List OutTok) (n : Nat) (h : Bal mid) :
    Bal ([.lbrace, .nl] ++ mid ++ [.ind n, .rbrace]) := by
  unfold Bal at *
  rw [balRun_append, balRun_append,
    show balRun 0 0 [OutTok.lbrace, OutTok.nl] = some (1, 0) from rfl]
  simp only []
  have hs : balRun 1 0 mid = some (1, 0) := balRun_shift mid 0 0 0 0 1 0 h
  rw [hs]
  rfl

theorem Bal_bracketWrap (mid : List OutTok) (n : Nat) (h : Bal mid) :
    Bal ([.lbracket, .nl] ++ mid ++ [.ind n, .rbracket]) := by
  unfold Bal at *
  rw [balRun_append, balRun_append,
    show balRun 0 0 [OutTok.lbracket, OutTok.nl] = some (0, 1) from rfl]
  simp only []
  have hs : balRun 0 1 mid = some (0, 1) := balRun_shift mid 0 0 0 0 0 1 h
  rw [hs]
  rfl

theorem anchorIds_append (a b : List OutTok) :
    anchorIds (a ++ b) = anchorIds a ++ anchorIds b := by
  induction a with
  | nil => rfl
  | cons t rest ih => cases t <;> simp [anchorIds, ih]

theorem Post_stay (st : RSt) (toks : List OutTok) (hb : Bal toks)
    (ha : anchorIds toks = []) : Post st toks st :=
  ⟨id, fun _ h => h, hb, by simp [ha], by simp [ha]⟩

theorem Post_trans (st st1 st2 : RSt) (A B : List OutTok)
    (h1 : Post st A st1) (h2 : Post st1 B st2) : Post st (A ++ B) st2 := by
  obtain ⟨g1, m1, b1, n1, f1⟩ := h1
  obtain ⟨g2, m2, b2, n2, f2⟩ := h2
  refine ⟨fun gs => g2 (g1 gs), fun a h => m2 a (m1 a h),
    Bal_append _ _ b1 b2, ?_, ?_⟩
  · rw [anchorIds_append]
    refine n1.append n2 ?_
    intro a haA haB
    exact (f2 a haB).2 (f1 a haA).1
  · rw [anchorIds_append]
    intro a ha
    rcases List.mem_append.mp ha with hA | hB
    · exact ⟨m2 _ (f1 a hA).1, (f1 a hA).2⟩
    · exact ⟨(f2 a hB).1, fun hin => (f2 a hB).2 (m1 _ hin)⟩

theorem Post_wrapBrace (st st1 : RSt) (mid : List OutTok) (n : Nat)
    (h : Post st mid st1) :
    Post st ([.lbrace, .nl] ++ mid ++ [.ind n, .rbrace]) st1 := by
  obtain ⟨g1, m1, b1, n1, f1⟩ := h
  refine ⟨g1, m1, Bal_braceWrap mid n b1, ?_, ?_⟩
  · simpa [anchorIds_append, anchorIds] using n1
  · simpa [anchorIds_append, anchorIds] using f1

theorem Post_wrapBracket (st st1 : RSt) (mid : List OutTok) (n : Nat)
    (h : Post st mid st1) :
    Post st ([.lbracket, .nl] ++ mid ++ [.ind n, .rbracket]) st1 := by
  obtain ⟨g1, m1, b1, n1, f1⟩ := h
  refine ⟨g1, m1, Bal_bracketWrap mid n b1, ?_, ?_⟩
  · simpa [anchorIds_append, anchorIds] using n1
  · simpa [anchorIds_append, anchorIds] using f1

theorem anchor_if_spec (anc : JValue) (anchors : List JValue)
    (res : Option JValue) (anchors2 : List JValue)
    (h : (if anc ∈ anchors then
            (Except.ok (none, anchors) : Except PyErr (Option JValue × List JValue))
          else Except.ok (some anc, anc :: anchors)) = .ok (res, anchors2)) :
    (∀ a ∈ anchors, a ∈ anchors2) ∧
    (res = none → anchors2 = anchors) ∧
    (∀ a, res = some a → a ∉ anchors ∧ anchors2 = a :: anchors) := by
  by_cases hm : anc ∈ anchors
  · rw [if_pos hm] at h
    simp only [Except.ok.injEq, Prod.mk.injEq] at h
    obtain ⟨h1, h2⟩ := h
    subst h1
    subst h2
    exact ⟨fun a ha => ha, fun _ => rfl, fun a hra => absurd hra (by simp)⟩
  · rw [if_neg hm] at h
    simp only [Except.ok.injEq, Prod.mk.injEq] at h
    obtain ⟨h1, h2⟩ := h
    subst h1
    subst h2
    refine ⟨fun a ha => List.mem_cons_of_mem _ ha,
      fun hn => absurd hn (by simp), fun a hra => ?_⟩
    obtain rfl : anc = a := by simpa using hra
    exact ⟨hm, rfl⟩

theorem get_anchor_spec (name : JValue) (pfx : String) (ctx : JValue)
    (anchors : List JValue) (res : Option JValue) (anchors2 : List JValue)
    (h : get_anchor name pfx ctx anchors = .ok (res, anchors2)) :
    (∀ a ∈ anchors, a ∈ anchors2) ∧
    (res = none → anchors2 = anchors) ∧
    (∀ a, res = some a → a ∉ anchors ∧ anchors2 = a :: anchors) := by
  unfold get_anchor at h
  simp only [] at h
  repeat' split at h
  all_goals simp at h
  all_goals obtain ⟨h1, h2⟩ := h
  all_goals first
    | (subst h1
       subst h2
       exact ⟨fun a ha => ha, fun _ => rfl, fun a hra => absurd hra (by simp)⟩)
    | (rename_i hm
       subst h1
       subst h2
       refine ⟨fun a ha => List.mem_cons_of_mem _ ha,
         fun hn => absurd hn (by simp), fun a hra => ?_⟩
       obtain rfl : _ = a := by simpa using hra
       exact ⟨hm, rfl⟩)

theorem finish_doc_url_spec (net : String → NetResult) (t : String)
    (rdf sub : JValue) (st : RSt) (u : Option String) (sc : JValue)
    (css : Option String) (st2 : RSt)
    (h : finish_doc_url net t rdf sub st = .ok (u, sc, css, st2)) :
    st2.anchors = st.anchors ∧
    (∀ x ∈ st.checked_urls, x ∈ st2.checked_urls) ∧
    (GoodState st → GoodState st2) := by
  unfold finish_doc_url at h
  cases rdf with
  | str s =>
    simp only [] at h
    cases hsp : rsplit2 s with
    | none =>
      rw [hsp] at h
      simp only [Except.ok.injEq, Prod.mk.injEq] at h
      obtain ⟨h1, h2, h3, h4⟩ := h
      subst h4
      exact ⟨rfl, fun x hx => hx, id⟩
    | some pn =>
      obtain ⟨p, n⟩ := pn
      rw [hsp] at h
      simp only [] at h
      by_cases hm : urlBase ++ p ++ "/" ++ t ++ "/" ++ n ∈ st.checked_urls
      · rw [if_pos hm] at h
        simp only [Except.ok.injEq, Prod.mk.injEq] at h
        obtain ⟨h1, h2, h3, h4⟩ := h
        subst h4
        refine ⟨rfl, fun x hx => List.mem_insert_iff.mpr (Or.inr hx), ?_⟩
        rintro ⟨hnd, hsub⟩
        exact ⟨hnd, fun x hx => List.mem_insert_iff.mpr (Or.inr (hsub x hx))⟩
      · rw [if_neg hm] at h
        cases hnet : net (urlBase ++ p ++ "/" ++ t ++ "/" ++ n) with
        | ok =>
          rw [hnet] at h
          simp only [Except.ok.injEq, Prod.mk.injEq] at h
          obtain ⟨h1, h2, h3, h4⟩ := h
          subst h4
          refine ⟨rfl, fun x hx => List.mem_insert_iff.mpr (Or.inr hx), ?_⟩
          rintro ⟨hnd, hsub⟩
          constructor
          · rw [List.nodup_append]
            refine ⟨hnd, List.nodup_singleton _, ?_⟩
            intro x hx hx1
            obtain rfl : x = urlBase ++ p ++ "/" ++ t ++ "/" ++ n := by
              simpa using hx1
            exact hm (hsub _ hx)
          · intro x hx
            rcases List.mem_append.mp hx with hx | hx
            · exact List.mem_insert_iff.mpr (Or.inr (hsub x hx))
            · obtain rfl : x = urlBase ++ p ++ "/" ++ t ++ "/" ++ n := by
                simpa using hx
              exact List.mem_insert_iff.mpr (Or.inl rfl)
        | httpError code =>
          rw [hnet] at h
          by_cases hc : code ≠ 404 <;> simp [hc] at h
        | transport =>
          rw [hnet] at h
          exact absurd h (by simp)
  | num n2 => exact absurd h (by simp)
  | bool b2 => exact absurd h (by simp)
  | null => exact absurd h (by simp)
  | obj kvs => exact absurd h (by simp)
  | arr l2 => exact absurd h (by simp)

theorem get_doc_url_spec (net : String → NetResult) (typ : Option String)
    (name : String) (ctx : JValue) (st : RSt) (u : Option String)
    (sc : JValue) (css : Option String) (st2 : RSt)
    (h : get_doc_url net typ name ctx st = .ok (u, sc, css, st2)) :
    st2.anchors = st.anchors ∧
    (∀ x ∈ st.checked_urls, x ∈ st2.checked_urls) ∧
    (GoodState st → GoodState st2) := by
  unfold get_doc_url at h
  repeat' split at h
  all_goals try exact finish_doc_url_spec _ _ _ _ _ _ _ _ _ h
  all_goals simp at h
  all_goals obtain ⟨h1, h2, h3, h4⟩ := h
  all_goals subst h4
  all_goals exact ⟨rfl, fun x hx => hx, id⟩

theorem Post_docUrl (net : String → NetResult) (typ : Option String)
    (name : String) (ctx : JValue) (st : RSt) (u : Option String)
    (sub : JValue) (css : Option String) (st2 : RSt)
    (h : get_doc_url net typ name ctx st = .ok (u, sub, css, st2)) :
    Post st [] st2 := by
  obtain ⟨ha, hc, hg⟩ := get_doc_url_spec net typ name ctx st u sub css st2 h
  exact ⟨hg, fun a hx => ha ▸ hx, Bal_nil, by simp [anchorIds],
    by simp [anchorIds]⟩

theorem Post_anchorGen (st : RSt) (res : Option JValue)
    (anchors2 : List JValue) (aToks : List OutTok)
    (hmono : ∀ a ∈ st.anchors, a ∈ anchors2)
    (hnone : res = none → anchors2 = st.anchors)
    (hsome : ∀ a, res = some a → a ∉ st.anchors ∧ anchors2 = a :: st.anchors)
    (hspan : idSpan .spanAnchor res = .ok aToks) :
    Post st aToks { st with anchors := anchors2 } := by
  cases res with
  | none =>
    obtain rfl := hnone rfl
    obtain rfl : aToks = [] := by simpa [idSpan] using hspan.symm
    exact ⟨id, fun a ha => hmono a ha, Bal_nil, by simp [anchorIds],
      by simp [anchorIds]⟩
  | some v =>
    obtain ⟨hnotin, rfl⟩ := hsome v rfl
    unfold idSpan at hspan
    simp only [] at hspan
    by_cases htr : v.truthy = true
    · rw [if_pos htr] at hspan
      cases v with
      | str s =>
        obtain rfl : aToks = [OutTok.spanAnchor s] := by simpa using hspan.symm
        refine ⟨id, fun a ha => List.mem_cons_of_mem _ ha, rfl, ?_, ?_⟩
        · simp [anchorIds]
        · intro a ha
          obtain rfl : a = s := by simpa [anchorIds] using ha
          exact ⟨List.mem_cons_self _ _, hnotin⟩
      | num n2 => exact absurd hspan (by simp)
      | bool b2 => exact absurd hspan (by simp)
      | null => exact absurd hspan (by simp)
      | obj kvs => exact absurd hspan (by simp)
      | arr l2 => exact absurd hspan (by simp)
    · rw [if_neg htr] at hspan
      obtain rfl : aToks = [] := by simpa using hspan.symm
      exact ⟨id, fun a ha => List.mem_cons_of_mem _ ha, Bal_nil,
        by simp [anchorIds], by simp [anchorIds]⟩

theorem Post_anchor (st : RSt) (name : JValue) (pfx : String) (ctx : JValue)
    (res : Option JValue) (anchors2 : List JValue) (aToks : List OutTok)
    (hga : get_anchor name pfx ctx st.anchors = .ok (res, anchors2))
    (hspan : idSpan .spanAnchor res = .ok aToks) :
    Post st aToks { st with anchors := anchors2 } := by
  obtain ⟨hmono, hnone, hsome⟩ :=
    get_anchor_spec name pfx ctx st.anchors res anchors2 hga
  exact Post_anchorGen st res anchors2 aToks hmono hnone hsome hspan

theorem obj_type_anchor_spec (obj ctx : JValue) (anchors : List JValue)
    (res : Option JValue) (anchors2 : List JValue)
    (h : obj_type_anchor obj ctx anchors = .ok (res, anchors2)) :
    (∀ a ∈ anchors, a ∈ anchors2) ∧
    (res = none → anchors2 = anchors) ∧
    (∀ a, res = some a → a ∉ anchors ∧ anchors2 = a :: anchors) := by
  unfold obj_type_anchor at h
  cases hpi : pyIn (.str "type") obj with
  | error e => rw [hpi] at h; exact absurd h (by simp)
  | ok b =>
    rw [hpi] at h
    cases b with
    | true =>
      simp only [] at h
      cases hgt : pyGetItem obj (.str "type") with
      | error e => rw [hgt] at h; exact absurd h (by simp)
      | ok tv =>
        rw [hgt] at h
        exact get_anchor_spec tv "class" ctx anchors res anchors2 h
    | false =>
      simp only [Except.ok.injEq, Prod.mk.injEq] at h
      obtain ⟨h1, h2⟩ := h
      subst h1
      subst h2
      exact ⟨fun a ha => ha, fun _ => rfl, fun a hra => absurd hra (by simp)⟩

theorem Post_objAnchor (st : RSt) (obj ctx : JValue) (res : Option JValue)
    (anchors2 : List JValue) (aToks : List OutTok)
    (hoa : obj_type_anchor obj ctx st.anchors = .ok (res, anchors2))
    (hspan : idSpan .spanAnchor res = .ok aToks) :
    Post st aToks { st with anchors := anchors2 } := by
  obtain ⟨hmono, hnone, hsome⟩ :=
    obj_type_anchor_spec obj ctx st.anchors res anchors2 hoa
  exact Post_anchorGen st res anchors2 aToks hmono hnone hsome hspan

theorem Post_spanId (st : RSt) (o : Option JValue) (toks : List OutTok)
    (h : idSpan .spanId o = .ok toks) : Post st toks st := by
  unfold idSpan at h
  cases o with
  | none =>
    obtain rfl : toks = [] := by simpa using h.symm
    exact Post_stay st [] Bal_nil rfl
  | some v =>
    simp only [] at h
    by_cases htr : v.truthy = true
    · rw [if_pos htr] at h
      cases v with
      | str s =>
        obtain rfl : toks = [OutTok.spanId s] := by simpa using h.symm
        exact Post_stay st _ rfl rfl
      | num n2 => exact absurd h (by simp)
      | bool b2 => exact absurd h (by simp)
      | null => exact absurd h (by simp)
      | obj kvs => exact absurd h (by simp)
      | arr l2 => exact absurd h (by simp)
    · rw [if_neg htr] at h
      obtain rfl : toks = [] := by simpa using h.symm
      exact Post_stay st [] Bal_nil rfl

theorem Post_closeSpan (st : RSt) (opened : List OutTok) :
    Post st (closeSpan opened) st := by
  unfold closeSpan
  by_cases he : opened.isEmpty
  · rw [if_pos he]
    exact Post_stay st [] Bal_nil rfl
  · rw [if_neg he]
    exact Post_stay st _ rfl rfl

theorem Post_ofDoc (st st1 : RSt) (lit : List OutTok) (hP : Post st [] st1)
    (hb : Bal lit) (ha : anchorIds lit = []) : Post st lit st1 := by
  have := Post_trans st st1 st1 [] lit hP (Post_stay st1 lit hb ha)
  simpa using this

/-- Combined invariant of every renderer call, by induction on fuel: a
successful call preserves the network-log invariant, only grows the
anchor set, emits a balanced fragment, and emits allocator anchors that
are mutually distinct, new, and recorded in the final anchor set. -/
theorem write_master : ∀ fuel : Nat,
    (∀ net ids v indent ctx typ st toks stF,
      write_value fuel net ids v indent ctx typ st = .ok (toks, stF) →
      Post st toks stF) ∧
    (∀ net ids l indent ctx st toks stF,
      write_list fuel net ids l indent ctx st = .ok (toks, stF) →
      Post st toks stF) ∧
    (∀ net ids l indent ctx st toks stF,
      write_list_items fuel net ids l indent ctx st = .ok (toks, stF) →
      Post st toks stF) ∧
    (∀ net ids obj indent ctx st toks stF,
      write_obj fuel net ids obj indent ctx st = .ok (toks, stF) →
      Post st toks stF) ∧
    (∀ net ids kvs indent ctx st toks stF,
      write_kvs fuel net ids kvs indent ctx st = .ok (toks, stF) →
      Post st toks stF) ∧
    (∀ net ids k v indent ctx st toks stF,
      write_key_value fuel net ids k v indent ctx st = .ok (toks, stF) →
      Post st toks stF) := by
  intro fuel
  induction fuel with
  | zero =>
    refine ⟨?_, ?_, ?_, ?_, ?_, ?_⟩ <;>
      · intros
        rename_i h
        exact absurd h (by simp [write_value, write_list, write_list_items,
          write_obj, write_kvs, write_key_value])
  | succ n ih =>
    obtain ⟨ihv, ihl, ihli, iho, ihk, ihkv⟩ := ih
    refine ⟨?_, ?_, ?_, ?_, ?_, ?_⟩
    · -- write_value
      intro net ids v indent ctx typ st toks stF h
      cases v with
      | str s =>
        simp only [write_value] at h
        cases hg : get_doc_url net typ s ctx st with
        | error e => rw [hg] at h; exact absurd h (by simp)
        | ok r =>
          obtain ⟨du, sub, css, st1⟩ := r
          rw [hg] at h
          simp only [] at h
          have hP : Post st [] st1 := Post_docUrl _ _ _ _ _ _ _ _ _ hg
          by_cases hm : JValue.str s ∈ ids
          · rw [if_pos hm] at h
            simp only [Except.ok.injEq, Prod.mk.injEq] at h
            obtain ⟨h1, h2⟩ := h
            subst h1
            subst h2
            exact Post_ofDoc st st1 _ hP rfl rfl
          · rw [if_neg hm] at h
            cases du with
            | some uu =>
              simp only [Except.ok.injEq, Prod.mk.injEq] at h
              obtain ⟨h1, h2⟩ := h
              subst h1
              subst h2
              exact Post_ofDoc st st1 _ hP rfl rfl
            | none =>
              simp only [] at h
              by_cases hs : (strStarts "http://" s || strStarts "https://" s) = true
              · rw [if_pos hs] at h
                simp only [Except.ok.injEq, Prod.mk.injEq] at h
                obtain ⟨h1, h2⟩ := h
                subst h1
                subst h2
                exact Post_ofDoc st st1 _ hP rfl rfl
              · rw [if_neg hs] at h
                simp only [Except.ok.injEq, Prod.mk.injEq] at h
                obtain ⟨h1, h2⟩ := h
                subst h1
                subst h2
                exact Post_ofDoc st st1 _ hP rfl rfl
      | obj kvs =>
        simp only [write_value] at h
        exact iho net ids (.obj kvs) indent ctx st toks stF h
      | arr l =>
        simp only [write_value] at h
        exact ihl net ids l indent ctx st toks stF h
      | bool b =>
        simp only [write_value, Except.ok.injEq, Prod.mk.injEq] at h
        obtain ⟨h1, h2⟩ := h
        subst h1
        subst h2
        exact Post_stay st _ rfl rfl
      | num n2 =>
        simp only [write_value, Except.ok.injEq, Prod.mk.injEq] at h
        obtain ⟨h1, h2⟩ := h
        subst h1
        subst h2
        exact Post_stay st _ rfl rfl
      | null =>
        simp only [write_value, Except.ok.injEq, Prod.mk.injEq] at h
        obtain ⟨h1, h2⟩ := h
        subst h1
        subst h2
        exact Post_stay st _ rfl rfl
    · -- write_list
      intro net ids l indent ctx st toks stF h
      simp only [write_list] at h
      cases hli : write_list_items n net ids l indent ctx st with
      | error e => rw [hli] at h; exact absurd h (by simp)
      | ok r =>
        obtain ⟨toks1, st1⟩ := r
        rw [hli] at h
        simp only [Except.ok.injEq, Prod.mk.injEq] at h
        obtain ⟨h1, h2⟩ := h
        subst h1
        subst h2
        exact Post_wrapBracket st st1 toks1 indent
          (ihli net ids l indent ctx st toks1 st1 hli)
    · -- write_list_items
      intro net ids l indent ctx st toks stF h
      cases l with
      | nil =>
        simp only [write_list_items, Except.ok.injEq, Prod.mk.injEq] at h
        obtain ⟨h1, h2⟩ := h
        subst h1
        subst h2
        exact Post_stay st [] Bal_nil rfl
      | cons x rest =>
        cases rest with
        | nil =>
          simp only [write_list_items] at h
          cases hv : write_value n net ids x (indent + 1) ctx none st with
          | error e => rw [hv] at h; exact absurd h (by simp)
          | ok r =>
            obtain ⟨toks1, st1⟩ := r
            rw [hv] at h
            simp only [Except.ok.injEq, Prod.mk.injEq] at h
            obtain ⟨h1, h2⟩ := h
            subst h1
            subst h2
            have hP1 := ihv net ids x (indent + 1) ctx none st toks1 st1 hv
            exact Post_trans _ _ _ _ _
              (Post_trans _ _ _ _ _ (Post_stay st _ rfl rfl) hP1)
              (Post_stay st1 _ rfl rfl)
        | cons y rest2 =>
          simp only [write_list_items] at h
          cases hv : write_value n net ids x (indent + 1) ctx none st with
          | error e => rw [hv] at h; exact absurd h (by simp)
          | ok r =>
            obtain ⟨toks1, st1⟩ := r
            rw [hv] at h
            simp only [] at h
            cases hrest : write_list_items n net ids (y :: rest2) indent ctx st1 with
            | error e => rw [hrest] at h; exact absurd h (by simp)
            | ok r2 =>
              obtain ⟨toks2, st2⟩ := r2
              rw [hrest] at h
              simp only [Except.ok.injEq, Prod.mk.injEq] at h
              obtain ⟨h1, h2⟩ := h
              subst h1
              subst h2
              have hP1 := ihv net ids x (indent + 1) ctx none st toks1 st1 hv
              have hP2 := ihli net ids (y :: rest2) indent ctx st1 toks2 st2 hrest
              exact Post_trans _ _ _ _ _
                (Post_trans _ _ _ _ _
                  (Post_trans _ _ _ _ _ (Post_stay st _ rfl rfl) hP1)
                  (Post_stay st1 _ rfl rfl))
                hP2
    · -- write_obj
      intro net ids obj indent ctx st toks stF h
      simp only [write_obj] at h
      cases hoa : obj_type_anchor obj ctx st.anchors with
      | error e => rw [hoa] at h; exact absurd h (by simp)
      | ok pr =>
        obtain ⟨anchor, anchors1⟩ := pr
        rw [hoa] at h
        simp only [] at h
        cases hs1 : idSpan .spanAnchor anchor with
        | error e => rw [hs1] at h; exact absurd h (by simp)
        | ok anchorToks =>
          rw [hs1] at h
          simp only [] at h
          cases hgo : get_obj_id obj with
          | error e => rw [hgo] at h; exact absurd h (by simp)
          | ok objId =>
            rw [hgo] at h
            simp only [] at h
            cases hs2 : idSpan .spanId objId with
            | error e => rw [hs2] at h; exact absurd h (by simp)
            | ok idToks =>
              rw [hs2] at h
              simp only [] at h
              cases hext : pyGet obj "externalSpdxId" with
              | error e => rw [hext] at h; exact absurd h (by simp)
              | ok ext =>
                rw [hext] at h
                simp only [] at h
                cases hs3 : idSpan .spanId ext with
                | error e => rw [hs3] at h; exact absurd h (by simp)
                | ok extToks =>
                  rw [hs3] at h
                  simp only [] at h
                  obtain ⟨kvs, rfl⟩ := get_obj_id_shape obj objId hgo
                  simp only [] at h
                  cases hkv : write_kvs n net ids kvs (indent + 1) ctx
                      { st with anchors := anchors1 } with
                  | error e => rw [hkv] at h; exact absurd h (by simp)
                  | ok r2 =>
                    obtain ⟨bodyToks, st2⟩ := r2
                    rw [hkv] at h
                    simp only [Except.ok.injEq, Prod.mk.injEq] at h
                    obtain ⟨h1, h2⟩ := h
                    subst h1
                    subst h2
                    have P0 := Post_objAnchor st (.obj kvs) ctx anchor anchors1
                      anchorToks hoa hs1
                    have P1 := Post_spanId { st with anchors := anchors1 }
                      objId idToks hs2
                    have P2 := Post_spanId { st with anchors := anchors1 }
                      ext extToks hs3
                    have PB := ihk net ids kvs (indent + 1) ctx
                      { st with anchors := anchors1 } bodyToks st2 hkv
                    have PBr := Post_wrapBrace _ _ bodyToks indent PB
                    have PC1 := Post_closeSpan st2 extToks
                    have PC2 := Post_closeSpan st2 idToks
                    have PC3 := Post_closeSpan st2 anchorToks
                    have chain := Post_trans _ _ _ _ _ P0
                      (Post_trans _ _ _ _ _ P1
                        (Post_trans _ _ _ _ _ P2
                          (Post_trans _ _ _ _ _ PBr
                            (Post_trans _ _ _ _ _ PC1
                              (Post_trans _ _ _ _ _ PC2 PC3)))))
                    simpa only [List.append_assoc] using chain
    · -- write_kvs
      intro net ids kvs indent ctx st toks stF h
      cases kvs with
      | nil =>
        simp only [write_kvs, Except.ok.injEq, Prod.mk.injEq] at h
        obtain ⟨h1, h2⟩ := h
        subst h1
        subst h2
        exact Post_stay st [] Bal_nil rfl
      | cons kv rest =>
        obtain ⟨k, v⟩ := kv
        cases rest with
        | nil =>
          simp only [write_kvs] at h
          cases hkv : write_key_value n net ids k v indent ctx st with
          | error e => rw [hkv] at h; exact absurd h (by simp)
          | ok r =>
            obtain ⟨toks1, st1⟩ := r
            rw [hkv] at h
            simp only [Except.ok.injEq, Prod.mk.injEq] at h
            obtain ⟨h1, h2⟩ := h
            subst h1
            subst h2
            exact Post_trans _ _ _ _ _
              (ihkv net ids k v indent ctx st toks1 st1 hkv)
              (Post_stay st1 _ rfl rfl)
        | cons kv2 rest2 =>
          simp only [write_kvs] at h
          cases hkv : write_key_value n net ids k v indent ctx st with
          | error e => rw [hkv] at h; exact absurd h (by simp)
          | ok r =>
            obtain ⟨toks1, st1⟩ := r
            rw [hkv] at h
            simp only [] at h
            cases hrest : write_kvs n net ids (kv2 :: rest2) indent ctx st1 with
            | error e => rw [hrest] at h; exact absurd h (by simp)
            | ok r2 =>
              obtain ⟨toks2, st2⟩ := r2
              rw [hrest] at h
              simp only [Except.ok.injEq, Prod.mk.injEq] at h
              obtain ⟨h1, h2⟩ := h
              subst h1
              subst h2
              exact Post_trans _ _ _ _ _
                (Post_trans _ _ _ _ _
                  (ihkv net ids k v indent ctx st toks1 st1 hkv)
                  (Post_stay st1 _ rfl rfl))
                (ihk net ids (kv2 :: rest2) indent ctx st1 toks2 st2 hrest)
    · -- write_key_value
      intro net ids k v indent ctx st toks stF h
      simp only [write_key_value] at h
      cases hga : get_anchor (.str k) "property" ctx st.anchors with
      | error e => rw [hga] at h; exact absurd h (by simp)
      | ok pr =>
        obtain ⟨anchor, anchors1⟩ := pr
        rw [hga] at h
        simp only [] at h
        cases hs1 : idSpan .spanAnchor anchor with
        | error e => rw [hs1] at h; exact absurd h (by simp)
        | ok aToks =>
          rw [hs1] at h
          simp only [] at h
          cases hgd : get_doc_url net (some "Properties") k ctx
              { st with anchors := anchors1 } with
          | error e => rw [hgd] at h; exact absurd h (by simp)
          | ok r =>
            obtain ⟨du, subCtx, css, st2⟩ := r
            rw [hgd] at h
            simp only [] at h
            cases hv : write_value n net ids v indent subCtx
                (if k == "type" then some "Classes" else none) st2 with
            | error e => rw [hv] at h; exact absurd h (by simp)
            | ok r2 =>
              obtain ⟨vToks, st3⟩ := r2
              rw [hv] at h
              simp only [Except.ok.injEq, Prod.mk.injEq] at h
              obtain ⟨h1, h2⟩ := h
              subst h1
              subst h2
              have P0 := Post_anchor st (.str k) "property" ctx anchor anchors1
                aToks hga hs1
              have PInd := Post_stay { st with anchors := anchors1 }
                [OutTok.ind indent] rfl rfl
              have PD := Post_docUrl net (some "Properties") k ctx
                { st with anchors := anchors1 } du subCtx css st2 hgd
              have PV := ihv net ids v indent subCtx
                (if k == "type" then some "Classes" else none) st2 vToks st3 hv
              have PC := Post_closeSpan st3 aToks
              have PCol := Post_stay st2 [OutTok.colon] rfl rfl
              cases du with
              | some uu =>
                have PKey := Post_stay { st with anchors := anchors1 }
                  [OutTok.aOpen uu, OutTok.strTok k (orString css),
                   OutTok.aClose] rfl rfl
                have chain := Post_trans _ _ _ _ _ P0
                  (Post_trans _ _ _ _ _ PInd
                    (Post_trans _ _ _ _ _ PKey
                      (Post_trans _ _ _ _ _ PD
                        (Post_trans _ _ _ _ _ PCol
                          (Post_trans _ _ _ _ _ PV PC)))))
                simpa only [List.append_assoc, List.nil_append,
                  List.append_nil] using chain
              | none =>
                have PKey := Post_stay { st with anchors := anchors1 }
                  [OutTok.strTok k (orString css)] rfl rfl
                have chain := Post_trans _ _ _ _ _ P0
                  (Post_trans _ _ _ _ _ PInd
                    (Post_trans _ _ _ _ _ PKey
                      (Post_trans _ _ _ _ _ PD
                        (Post_trans _ _ _ _ _ PCol
                          (Post_trans _ _ _ _ _ PV PC)))))
                simpa only [List.append_assoc, List.nil_append,
                  List.append_nil] using chain

theorem mem_prefixesOf_cons {α : Type} (t : α) (l : List α) (p : List α) :
    p ∈ prefixesOf (t :: l) ↔ p = [] ∨ ∃ q ∈ prefixesOf l, p = t :: q := by
  simp only [prefixesOf, List.mem_cons, List.mem_map]
  constructor
  · rintro (rfl | ⟨q, hq, rfl⟩)
    · exact Or.inl rfl
    · exact Or.inr ⟨q, hq, rfl⟩
  · rintro (rfl | ⟨q, hq, rfl⟩)
    · exact Or.inl rfl
    · exact Or.inr ⟨q, hq, rfl⟩

theorem balRun_prefix_counts : ∀ (l : List OutTok) (b k b2 k2 : Nat),
    balRun b k l = some (b2, k2) →
    (∀ p ∈ prefixesOf l,
      p.count OutTok.rbrace ≤ b + p.count OutTok.lbrace ∧
      p.count OutTok.rbracket ≤ k + p.count OutTok.lbracket) ∧
    b + l.count OutTok.lbrace = b2 + l.count OutTok.rbrace ∧
    k + l.count OutTok.lbracket = k2 + l.count OutTok.rbracket := by
  intro l
  induction l with
  | nil =>
    intro b k b2 k2 h
    simp only [balRun, Option.some.injEq, Prod.mk.injEq] at h
    refine ⟨?_, ?_, ?_⟩
    · intro p hp
      obtain rfl : p = [] := by simpa [prefixesOf] using hp
      simp
    · simp
      omega
    · simp
      omega
  | cons t rest ih =>
    intro b k b2 k2 h
    cases t with
    | lbrace =>
      simp only [balRun] at h
      obtain ⟨hpre, h1, h2⟩ := ih (b + 1) k b2 k2 h
      refine ⟨?_, ?_, ?_⟩
      · intro p hp
        rcases (mem_prefixesOf_cons _ _ _).mp hp with rfl | ⟨q, hq, hpq⟩
        · simp
        · subst hpq
          have := hpre q hq
          simp only [List.count_cons]
          simp
          omega
      · have := h1
        simp only [List.count_cons]
        simp
        omega
      · have := h2
        simp only [List.count_cons]
        simp
        omega
    | lbracket =>
      simp only [balRun] at h
      obtain ⟨hpre, h1, h2⟩ := ih b (k + 1) b2 k2 h
      refine ⟨?_, ?_, ?_⟩
      · intro p hp
        rcases (mem_prefixesOf_cons _ _ _).mp hp with rfl | ⟨q, hq, hpq⟩
        · simp
        · subst hpq
          have := hpre q hq
          simp only [List.count_cons]
          simp
          omega
      · have := h1
        simp only [List.count_cons]
        simp
        omega
      · have := h2
        simp only [List.count_cons]
        simp
        omega
    | rbrace =>
      cases b with
      | zero => simp [balRun] at h
      | succ b3 =>
        simp only [balRun] at h
        obtain ⟨hpre, h1, h2⟩ := ih b3 k b2 k2 h
        refine ⟨?_, ?_, ?_⟩
        · intro p hp
          rcases (mem_prefixesOf_cons _ _ _).mp hp with rfl | ⟨q, hq, hpq⟩
          · simp
          · subst hpq
            have := hpre q hq
            simp only [List.count_cons]
            simp
            omega
        · have := h1
          simp only [List.count_cons]
          simp
          omega
        · have := h2
          simp only [List.count_cons]
          simp
          omega
    | rbracket =>
      cases k with
      | zero => simp [balRun] at h
      | succ k3 =>
        simp only [balRun] at h
        obtain ⟨hpre, h1, h2⟩ := ih b k3 b2 k2 h
        refine ⟨?_, ?_, ?_⟩
        · intro p hp
          rcases (mem_prefixesOf_cons _ _ _).mp hp with rfl | ⟨q, hq, hpq⟩
          · simp
          · subst hpq
            have := hpre q hq
            simp only [List.count_cons]
            simp
            omega
        · have := h1
          simp only [List.count_cons]
          simp
          omega
        · have := h2
          simp only [List.count_cons]
          simp
          omega
    | colon =>
      simp only [balRun] at h
      obtain ⟨hpre, h1, h2⟩ := ih b k b2 k2 h
      refine ⟨?_, ?_, ?_⟩
      · intro p hp
        rcases (mem_prefixesOf_cons _ _ _).mp hp with rfl | ⟨q, hq, hpq⟩
        · simp
        · subst hpq
          have := hpre q hq
          simp only [List.count_cons]
          simp
          omega
      · have := h1
        simp only [List.count_cons]
        simp
        omega
      · have := h2
        simp only [List.count_cons]
        simp
        omega
    | comma =>
      simp only [balRun] at h
      obtain ⟨hpre, h1, h2⟩ := ih b k b2 k2 h
      refine ⟨?_, ?_, ?_⟩
      · intro p hp
        rcases (mem_prefixesOf_cons _ _ _).mp hp with rfl | ⟨q, hq, hpq⟩
        · simp
        · subst hpq
          have := hpre q hq
          simp only [List.count_cons]
          simp
          omega
      · have := h1
        simp only [List.count_cons]
        simp
        omega
      · have := h2
        simp only [List.count_cons]
        simp
        omega
    | nl =>
      simp only [balRun] at h
      obtain ⟨hpre, h1, h2⟩ := ih b k b2 k2 h
      refine ⟨?_, ?_, ?_⟩
      · intro p hp
        rcases (mem_prefixesOf_cons _ _ _).mp hp with rfl | ⟨q, hq, hpq⟩
        · simp
        · subst hpq
          have := hpre q hq
          simp only [List.count_cons]
          simp
          omega
      · have := h1
        simp only [List.count_cons]
        simp
        omega
      · have := h2
        simp only [List.count_cons]
        simp
        omega
    | ind n2 =>
      simp only [balRun] at h
      obtain ⟨hpre, h1, h2⟩ := ih b k b2 k2 h
      refine ⟨?_, ?_, ?_⟩
      · intro p hp
        rcases (mem_prefixesOf_cons _ _ _).mp hp with rfl | ⟨q, hq, hpq⟩
        · simp
        · subst hpq
          have := hpre q hq
          simp only [List.count_cons]
          simp
          omega
      · have := h1
        simp only [List.count_cons]
        simp
        omega
      · have := h2
        simp only [List.count_cons]
        simp
        omega
    | spanAnchor s2 =>
      simp only [balRun] at h
      obtain ⟨hpre, h1, h2⟩ := ih b k b2 k2 h
      refine ⟨?_, ?_, ?_⟩
      · intro p hp
        rcases (mem_prefixesOf_cons _ _ _).mp hp with rfl | ⟨q, hq, hpq⟩
        · simp
        · subst hpq
          have := hpre q hq
          simp only [List.count_cons]
          simp
          omega
      · have := h1
        simp only [List.count_cons]
        simp
        omega
      · have := h2
        simp only [List.count_cons]
        simp
        omega
    | spanId s2 =>
      simp only [balRun] at h
      obtain ⟨hpre, h1, h2⟩ := ih b k b2 k2 h
      refine ⟨?_, ?_, ?_⟩
      · intro p hp
        rcases (mem_prefixesOf_cons _ _ _).mp hp with rfl | ⟨q, hq, hpq⟩
        · simp
        · subst hpq
          have := hpre q hq
          simp only [List.count_cons]
          simp
          omega
      · have := h1
        simp only [List.count_cons]
        simp
        omega
      · have := h2
        simp only [List.count_cons]
        simp
        omega
    | spanClose =>
      simp only [balRun] at h
      obtain ⟨hpre, h1, h2⟩ := ih b k b2 k2 h
      refine ⟨?_, ?_, ?_⟩
      · intro p hp
        rcases (mem_prefixesOf_cons _ _ _).mp hp with rfl | ⟨q, hq, hpq⟩
        · simp
        · subst hpq
          have := hpre q hq
          simp only [List.count_cons]
          simp
          omega
      · have := h1
        simp only [List.count_cons]
        simp
        omega
      · have := h2
        simp only [List.count_cons]
        simp
        omega
    | aOpen u2 =>
      simp only [balRun] at h
      obtain ⟨hpre, h1, h2⟩ := ih b k b2 k2 h
      refine ⟨?_, ?_, ?_⟩
      · intro p hp
        rcases (mem_prefixesOf_cons _ _ _).mp hp with rfl | ⟨q, hq, hpq⟩
        · simp
        · subst hpq
          have := hpre q hq
          simp only [List.count_cons]
          simp
          omega
      · have := h1
        simp only [List.count_cons]
        simp
        omega
      · have := h2
        simp only [List.count_cons]
        simp
        omega
    | aClose =>
      simp only [balRun] at h
      obtain ⟨hpre, h1, h2⟩ := ih b k b2 k2 h
      refine ⟨?_, ?_, ?_⟩
      · intro p hp
        rcases (mem_prefixesOf_cons _ _ _).mp hp with rfl | ⟨q, hq, hpq⟩
        · simp
        · subst hpq
          have := hpre q hq
          simp only [List.count_cons]
          simp
          omega
      · have := h1
        simp only [List.count_cons]
        simp
        omega
      · have := h2
        simp only [List.count_cons]
        simp
        omega
    | strTok s2 c2 =>
      simp only [balRun] at h
      obtain ⟨hpre, h1, h2⟩ := ih b k b2 k2 h
      refine ⟨?_, ?_, ?_⟩
      · intro p hp
        rcases (mem_prefixesOf_cons _ _ _).mp hp with rfl | ⟨q, hq, hpq⟩
        · simp
        · subst hpq
          have := hpre q hq
          simp only [List.count_cons]
          simp
          omega
      · have := h1
        simp only [List.count_cons]
        simp
        omega
      · have := h2
        simp only [List.count_cons]
        simp
        omega
    | boolTok bb =>
      simp only [balRun] at h
      obtain ⟨hpre, h1, h2⟩ := ih b k b2 k2 h
      refine ⟨?_, ?_, ?_⟩
      · intro p hp
        rcases (mem_prefixesOf_cons _ _ _).mp hp with rfl | ⟨q, hq, hpq⟩
        · simp
        · subst hpq
          have := hpre q hq
          simp only [List.count_cons]
          simp
          omega
      · have := h1
        simp only [List.count_cons]
        simp
        omega
      · have := h2
        simp only [List.count_cons]
        simp
        omega
    | numTok s2 =>
      simp only [balRun] at h
      obtain ⟨hpre, h1, h2⟩ := ih b k b2 k2 h
      refine ⟨?_, ?_, ?_⟩
      · intro p hp
        rcases (mem_prefixesOf_cons _ _ _).mp hp with rfl | ⟨q, hq, hpq⟩
        · simp
        · subst hpq
          have := hpre q hq
          simp only [List.count_cons]
          simp
          omega
      · have := h1
        simp only [List.count_cons]
        simp
        omega
      · have := h2
        simp only [List.count_cons]
        simp
        omega

/-- C2 (amended): within one render, the anchors handed out by the
anchor allocator (class and property anchors, the `spanAnchor` id spans)
are pairwise distinct — each anchor string is emitted as a DOM id at
most once.  Node `@id`/`spdxId`/`externalSpdxId` spans, by contrast, are
emitted verbatim for every node and may collide (see the
counterexample). -/
theorem c2_amended_allocator_anchors_unique (fuel : Nat)
    (net : String → NetResult) (data context : JValue)
    (toks : List OutTok) (stF : RSt)
    (h : render fuel net data context = .ok (toks, stF)) :
    (anchorIds toks).Nodup := by
  unfold render at h
  repeat' split at h
  all_goals first
    | exact ((write_master fuel).2.2.2.1 _ _ _ _ _ _ _ _ h).2.2.2.1
    | exact absurd h (by simp)

/-- Closed instance of the amended C2 statement at a concrete render. -/
theorem c2_amended_allocator_anchors_unique_witness :
    (anchorIds [OutTok.lbrace, OutTok.nl, OutTok.spanAnchor "property-@graph",
      OutTok.ind 1, OutTok.strTok "@graph" "string", OutTok.colon,
      OutTok.lbracket, OutTok.nl, OutTok.ind 1, OutTok.rbracket,
      OutTok.spanClose, OutTok.nl, OutTok.ind 0, OutTok.rbrace]).Nodup :=
  c2_amended_allocator_anchors_unique 10 netAllOk
    (.obj [("@graph", .arr [])]) (.obj [("@context", .obj [])])
    [OutTok.lbrace, OutTok.nl, OutTok.spanAnchor "property-@graph",
     OutTok.ind 1, OutTok.strTok "@graph" "string", OutTok.colon,
     OutTok.lbracket, OutTok.nl, OutTok.ind 1, OutTok.rbracket,
     OutTok.spanClose, OutTok.nl, OutTok.ind 0, OutTok.rbrace]
    { anchors := [JValue.str "property-@graph"], checked_urls := [],
      netCalls := [] }
    (by decide)

theorem finish_doc_url_oracle (net netB : String → NetResult) (t : String)
    (rdf sub : JValue) (st : RSt)
    (hag : ∀ u, u ∉ st.checked_urls → net u = netB u) :
    finish_doc_url net t rdf sub st = finish_doc_url netB t rdf sub st := by
  unfold finish_doc_url
  cases rdf with
  | str s =>
    simp only []
    cases hsp : rsplit2 s with
    | none => rfl
    | some pn =>
      obtain ⟨p, n⟩ := pn
      simp only []
      by_cases hm : urlBase ++ p ++ "/" ++ t ++ "/" ++ n ∈ st.checked_urls
      · rw [if_pos hm, if_pos hm]
      · rw [if_neg hm, if_neg hm, hag _ hm]
  | num n2 => rfl
  | bool b2 => rfl
  | null => rfl
  | obj kvs => rfl
  | arr l2 => rfl

theorem get_doc_url_oracle (net netB : String → NetResult)
    (typ : Option String) (name : String) (ctx : JValue) (st : RSt)
    (hag : ∀ u, u ∉ st.checked_urls → net u = netB u) :
    get_doc_url net typ name ctx st = get_doc_url netB typ name ctx st := by
  unfold get_doc_url
  cases hpi : pyIn (.str "@vocab") ctx with
  | error e => rfl
  | ok b =>
    cases b with
    | true =>
      simp only []
      cases pyGetItem ctx (.str "@vocab") with
      | error e => rfl
      | ok rdf => exact finish_doc_url_oracle net netB _ rdf ctx st hag
    | false =>
      simp only []
      cases typ with
      | none => rfl
      | some t =>
        cases pyIn (.str name) ctx with
        | error e => rfl
        | ok b2 =>
          cases b2 with
          | false => rfl
          | true =>
            simp only []
            cases pyGetItem ctx (.str name) with
            | error e => rfl
            | ok rdf =>
              cases rdf with
              | obj fields =>
                simp only []
                cases lookupKV fields "@id" with
                | none => rfl
                | some v => exact finish_doc_url_oracle net netB t v _ st hag
              | str s2 => exact finish_doc_url_oracle net netB t _ ctx st hag
              | num n2 => exact finish_doc_url_oracle net netB t _ ctx st hag
              | bool bb => exact finish_doc_url_oracle net netB t _ ctx st hag
              | null => exact finish_doc_url_oracle net netB t _ ctx st hag
              | arr l2 => exact finish_doc_url_oracle net netB t _ ctx st hag

/-- C3: over a whole render the log of network existence checks contains
no URL twice (each distinct documentation URL is validated at most
once), and a term resolution whose URL is already in the validation
cache never consults the network: the result of `get_doc_url` is the
same under any two oracles that agree outside the cache. -/
theorem c3_validation_at_most_once (fuel : Nat)
    (net netB : String → NetResult) (data context : JValue)
    (toks : List OutTok) (stF : RSt) (typ : Option String) (name : String)
    (ctx : JValue) (st : RSt)
    (h : render fuel net data context = .ok (toks, stF)) :
    stF.netCalls.Nodup ∧
    ((∀ u, u ∉ st.checked_urls → net u = netB u) →
      get_doc_url net typ name ctx st = get_doc_url netB typ name ctx st) := by
  constructor
  · have hgood : GoodState stF := by
      unfold render at h
      repeat' split at h
      all_goals first
        | exact ((write_master fuel).2.2.2.1 _ _ _ _ _ _ _ _ h).1
            ⟨List.nodup_nil, by simp⟩
        | exact absurd h (by simp)
    exact hgood.1
  · exact get_doc_url_oracle net netB typ name ctx st

/-- Closed instance of C3 with two context terms resolving to the same
IRI: one network validation in the log, and the second resolution served
from the cache. -/
theorem c3_validation_at_most_once_witness :
    ([("https://spdx.github.io/spdx-spec/v3.0.1/model/P/Properties/T" :
        String)]).Nodup ∧
    ((∀ u, u ∉ (emptySt).checked_urls → netAllOk u = netAllOk u) →
      get_doc_url netAllOk (some "Properties") "a" (.obj []) emptySt =
        get_doc_url netAllOk (some "Properties") "a" (.obj []) emptySt) :=
  c3_validation_at_most_once 10 netAllOk netAllOk
    (.obj [("a", .str "v"), ("b", .str "w")])
    (.obj [("@context",
      .obj [("a", .str "https://x/P/T"), ("b", .str "https://x/P/T")])])
    [OutTok.lbrace, OutTok.nl, OutTok.spanAnchor "https://x/P/T",
     OutTok.ind 1,
     OutTok.aOpen "https://spdx.github.io/spdx-spec/v3.0.1/model/P/Properties/T",
     OutTok.strTok "a" "properties", OutTok.aClose, OutTok.colon,
     OutTok.strTok "v" "string", OutTok.spanClose, OutTok.comma, OutTok.nl,
     OutTok.ind 1,
     OutTok.aOpen "https://spdx.github.io/spdx-spec/v3.0.1/model/P/Properties/T",
     OutTok.strTok "b" "properties", OutTok.aClose, OutTok.colon,
     OutTok.strTok "w" "string", OutTok.nl, OutTok.ind 0, OutTok.rbrace]
    { anchors := [JValue.str "https://x/P/T"],
      checked_urls :=
        ["https://spdx.github.io/spdx-spec/v3.0.1/model/P/Properties/T"],
      netCalls :=
        ["https://spdx.github.io/spdx-spec/v3.0.1/model/P/Properties/T"] }
    (some "Properties") "a" (.obj []) emptySt (by decide)

/-- C8: for every successfully rendered document, in every prefix of the
output token stream the number of closing braces (resp. brackets) never
exceeds the number of opening braces (resp. brackets), and both depths
return to zero exactly at the end of the fragment. -/
theorem c8_structural_balance (fuel : Nat) (net : String → NetResult)
    (data context : JValue) (toks : List OutTok) (stF : RSt)
    (h : render fuel net data context = .ok (toks, stF)) :
    (∀ p ∈ prefixesOf toks,
      p.count OutTok.rbrace ≤ p.count OutTok.lbrace ∧
      p.count OutTok.rbracket ≤ p.count OutTok.lbracket) ∧
    toks.count OutTok.rbrace = toks.count OutTok.lbrace ∧
    toks.count OutTok.rbracket = toks.count OutTok.lbracket := by
  have hbal : Bal toks := by
    unfold render at h
    repeat' split at h
    all_goals first
      | exact ((write_master fuel).2.2.2.1 _ _ _ _ _ _ _ _ h).2.2.1
      | exact absurd h (by simp)
  obtain ⟨hpre, h1, h2⟩ := balRun_prefix_counts toks 0 0 0 0 hbal
  refine ⟨?_, by omega, by omega⟩
  intro p hp
  have := hpre p hp
  omega

/-- Closed instance of C8 at a concrete render. -/
theorem c8_structural_balance_witness :
    (∀ p ∈ prefixesOf [OutTok.lbrace, OutTok.nl,
        OutTok.spanAnchor "property-@graph", OutTok.ind 1,
        OutTok.strTok "@graph" "string", OutTok.colon, OutTok.lbracket,
        OutTok.nl, OutTok.ind 1, OutTok.rbracket, OutTok.spanClose,
        OutTok.nl, OutTok.ind 0, OutTok.rbrace],
      p.count OutTok.rbrace ≤ p.count OutTok.lbrace ∧
      p.count OutTok.rbracket ≤ p.count OutTok.lbracket) ∧
    ([OutTok.lbrace, OutTok.nl, OutTok.spanAnchor "property-@graph",
      OutTok.ind 1, OutTok.strTok "@graph" "string", OutTok.colon,
      OutTok.lbracket, OutTok.nl, OutTok.ind 1, OutTok.rbracket,
      OutTok.spanClose, OutTok.nl, OutTok.ind 0,
      OutTok.rbrace].count OutTok.rbrace =
      [OutTok.lbrace, OutTok.nl, OutTok.spanAnchor "property-@graph",
       OutTok.ind 1, OutTok.strTok "@graph" "string", OutTok.colon,
       OutTok.lbracket, OutTok.nl, OutTok.ind 1, OutTok.rbracket,
       OutTok.spanClose, OutTok.nl, OutTok.ind 0,
       OutTok.rbrace].count OutTok.lbrace) ∧
    ([OutTok.lbrace, OutTok.nl, OutTok.spanAnchor "property-@graph",
      OutTok.ind 1, OutTok.strTok "@graph" "string", OutTok.colon,
      OutTok.lbracket, OutTok.nl, OutTok.ind 1, OutTok.rbracket,
      OutTok.spanClose, OutTok.nl, OutTok.ind 0,
      OutTok.rbrace].count OutTok.rbracket =
      [OutTok.lbrace, OutTok.nl, OutTok.spanAnchor "property-@graph",
       OutTok.ind 1, OutTok.strTok "@graph" "string", OutTok.colon,
       OutTok.lbracket, OutTok.nl, OutTok.ind 1, OutTok.rbracket,
       OutTok.spanClose, OutTok.nl, OutTok.ind 0,
       OutTok.rbrace].count OutTok.lbracket) :=
  c8_structural_balance 12 netAllOk (.obj [("@graph", .arr [])])
    (.obj [("@context", .obj [])])
    [OutTok.lbrace, OutTok.nl, OutTok.spanAnchor "property-@graph",
     OutTok.ind 1, OutTok.strTok "@graph" "string", OutTok.colon,
     OutTok.lbracket, OutTok.nl, OutTok.ind 1, OutTok.rbracket,
     OutTok.spanClose, OutTok.nl, OutTok.ind 0, OutTok.rbrace]
    { anchors := [JValue.str "property-@graph"], checked_urls := [],
      netCalls := [] }
    (by decide)

theorem write_kvs_join : ∀ (kvs : List (String × JValue)) (fuel : Nat)
    (net : String → NetResult) (ids : List JValue) (indent : Nat)
    (ctx : JValue) (st : RSt) (toks : List OutTok) (stF : RSt),
    write_kvs fuel net ids kvs indent ctx st = .ok (toks, stF) →
    ∃ segs : List (List OutTok), toks = joinKV segs ∧
      segs.length = kvs.length ∧
      ∀ i (hi : i < kvs.length) (hs : i < segs.length),
        ∃ f st1 st2, write_key_value f net ids (kvs.get ⟨i, hi⟩).1
          (kvs.get ⟨i, hi⟩).2 indent ctx st1 = .ok (segs.get ⟨i, hs⟩, st2) := by
  intro kvs
  induction kvs with
  | nil =>
    intro fuel net ids indent ctx st toks stF h
    cases fuel with
    | zero => simp [write_kvs] at h
    | succ n =>
      simp only [write_kvs, Except.ok.injEq, Prod.mk.injEq] at h
      obtain ⟨h1, h2⟩ := h
      subst h1
      exact ⟨[], rfl, rfl, fun i hi hs => absurd hi (by simp)⟩
  | cons kv rest ih =>
    intro fuel net ids indent ctx st toks stF h
    obtain ⟨k, v⟩ := kv
    cases fuel with
    | zero => simp [write_kvs] at h
    | succ n =>
      cases rest with
      | nil =>
        simp only [write_kvs] at h
        cases hkv : write_key_value n net ids k v indent ctx st with
        | error e => rw [hkv] at h; exact absurd h (by simp)
        | ok r =>
          obtain ⟨toks1, st1⟩ := r
          rw [hkv] at h
          simp only [Except.ok.injEq, Prod.mk.injEq] at h
          obtain ⟨h1, h2⟩ := h
          subst h1
          refine ⟨[toks1], rfl, rfl, ?_⟩
          intro i hi hs
          obtain rfl : i = 0 := Nat.lt_one_iff.mp hi
          exact ⟨n, st, st1, hkv⟩
      | cons kv2 rest2 =>
        simp only [write_kvs] at h
        cases hkv : write_key_value n net ids k v indent ctx st with
        | error e => rw [hkv] at h; exact absurd h (by simp)
        | ok r =>
          obtain ⟨toks1, st1⟩ := r
          rw [hkv] at h
          simp only [] at h
          cases hrest : write_kvs n net ids (kv2 :: rest2) indent ctx st1 with
          | error e => rw [hrest] at h; exact absurd h (by simp)
          | ok r2 =>
            obtain ⟨toks2, st2⟩ := r2
            rw [hrest] at h
            simp only [Except.ok.injEq, Prod.mk.injEq] at h
            obtain ⟨h1, h2⟩ := h
            subst h1
            obtain ⟨segs, hseg, hlen, hidx⟩ :=
              ih n net ids indent ctx st1 toks2 st2 hrest
            cases segs with
            | nil => simp at hlen
            | cons s2 ss =>
              refine ⟨toks1 :: s2 :: ss, by simp [joinKV, hseg], by simpa using hlen, ?_⟩
              intro i hi hs
              cases i with
              | zero => exact ⟨n, st, st1, hkv⟩
              | succ j =>
                have hj : j < (kv2 :: rest2).length := by simpa using hi
                have hjs : j < (s2 :: ss).length := by simpa using hs
                obtain ⟨f, sa, sb, hw⟩ := hidx j hj hjs
                exact ⟨f, sa, sb, hw⟩

/-- C9: the key/value pairs of a rendered object appear in the output in
exactly the original source order, each pair's line produced by
`write_key_value`, with every pair but the last followed by a comma and
no comma after the last (the `joinKV` shape). -/
theorem c9_source_order_and_commas (fuel : Nat) (net : String → NetResult)
    (ids : List JValue) (kvs : List (String × JValue)) (indent : Nat)
    (ctx : JValue) (st : RSt) (toks : List OutTok) (stF : RSt)
    (h : write_obj fuel net ids (.obj kvs) indent ctx st = .ok (toks, stF)) :
    ∃ pre segs post, toks = pre ++ joinKV segs ++ post ∧
      segs.length = kvs.length ∧
      ∀ i (hi : i < kvs.length) (hs : i < segs.length),
        ∃ f st1 st2, write_key_value f net ids (kvs.get ⟨i, hi⟩).1
          (kvs.get ⟨i, hi⟩).2 (indent + 1) ctx st1 =
            .ok (segs.get ⟨i, hs⟩, st2) := by
  cases fuel with
  | zero => simp [write_obj] at h
  | succ n =>
    simp only [write_obj] at h
    cases hoa : obj_type_anchor (.obj kvs) ctx st.anchors with
    | error e => rw [hoa] at h; exact absurd h (by simp)
    | ok pr =>
      obtain ⟨anchor, anchors1⟩ := pr
      rw [hoa] at h
      simp only [] at h
      cases hs1 : idSpan .spanAnchor anchor with
      | error e => rw [hs1] at h; exact absurd h (by simp)
      | ok anchorToks =>
        rw [hs1] at h
        simp only [] at h
        cases hgo : get_obj_id (.obj kvs) with
        | error e => rw [hgo] at h; exact absurd h (by simp)
        | ok objId =>
          rw [hgo] at h
          simp only [] at h
          cases hs2 : idSpan .spanId objId with
          | error e => rw [hs2] at h; exact absurd h (by simp)
          | ok idToks =>
            rw [hs2] at h
            simp only [] at h
            cases hext : pyGet (.obj kvs) "externalSpdxId" with
            | error e => rw [hext] at h; exact absurd h (by simp)
            | ok ext =>
              rw [hext] at h
              simp only [] at h
              cases hs3 : idSpan .spanId ext with
              | error e => rw [hs3] at h; exact absurd h (by simp)
              | ok extToks =>
                rw [hs3] at h
                simp only [] at h
                cases hkv : write_kvs n net ids kvs (indent + 1) ctx
                    { st with anchors := anchors1 } with
                | error e => rw [hkv] at h; exact absurd h (by simp)
                | ok r2 =>
                  obtain ⟨bodyToks, st2⟩ := r2
                  rw [hkv] at h
                  simp only [Except.ok.injEq, Prod.mk.injEq] at h
                  obtain ⟨h1, h2⟩ := h
                  subst h1
                  obtain ⟨segs, hseg, hlen, hidx⟩ :=
                    write_kvs_join kvs n net ids (indent + 1) ctx
                      { st with anchors := anchors1 } bodyToks st2 hkv
                  refine ⟨anchorToks ++ idToks ++ extToks ++ [.lbrace, .nl],
                    segs,
                    [.ind indent, .rbrace] ++ closeSpan extToks ++
                      closeSpan idToks ++ closeSpan anchorToks,
                    ?_, hlen, hidx⟩
                  rw [← hseg]
                  simp [List.append_assoc]

/-- Closed instance of C9 at a concrete two-key object: the output
decomposes into two per-pair segments in source order joined by exactly
one comma. -/
theorem c9_source_order_and_commas_witness :
    ∃ pre segs post,
      ([OutTok.lbrace, OutTok.nl, OutTok.spanAnchor "property-a",
        OutTok.ind 1, OutTok.strTok "a" "string", OutTok.colon,
        OutTok.numTok "1", OutTok.spanClose, OutTok.comma, OutTok.nl,
        OutTok.spanAnchor "property-b", OutTok.ind 1,
        OutTok.strTok "b" "string", OutTok.colon, OutTok.numTok "2",
        OutTok.spanClose, OutTok.nl, OutTok.ind 0,
        OutTok.rbrace] : List OutTok) = pre ++ joinKV segs ++ post ∧
      segs.length = ([("a", JValue.num 1), ("b", JValue.num 2)]).length ∧
      ∀ i (hi : i < ([("a", JValue.num 1), ("b", JValue.num 2)]).length)
        (hs : i < segs.length),
        ∃ f st1 st2, write_key_value f netAllOk []
          (([("a", JValue.num 1), ("b", JValue.num 2)]).get ⟨i, hi⟩).1
          (([("a", JValue.num 1), ("b", JValue.num 2)]).get ⟨i, hi⟩).2
          (0 + 1) (.obj []) st1 = .ok (segs.get ⟨i, hs⟩, st2) :=
  c9_source_order_and_commas 10 netAllOk [] [("a", .num 1), ("b", .num 2)] 0
    (.obj []) emptySt
    [OutTok.lbrace, OutTok.nl, OutTok.spanAnchor "property-a", OutTok.ind 1,
     OutTok.strTok "a" "string", OutTok.colon, OutTok.numTok "1",
     OutTok.spanClose, OutTok.comma, OutTok.nl,
     OutTok.spanAnchor "property-b", OutTok.ind 1,
     OutTok.strTok "b" "string", OutTok.colon, OutTok.numTok "2",
     OutTok.spanClose, OutTok.nl, OutTok.ind 0, OutTok.rbrace]
    { anchors := [JValue.str "property-b", JValue.str "property-a"],
      checked_urls := [], netCalls := [] }
    (by decide)
